import Mathlib

/-!
Shallow embedding of the kernel-extension manager engine from
kext.subproj/KXKextManager.c: the version-chain builder, the
dependency-closure splice pass, the relationship invalidation controller,
the loaded-kext reconciliation walk, and the load-preparation state
machine.  Kext records live in an arena (a list indexed by natural-number
handles); the priorVersion/duplicateVersion links are optional handles, as
suggested by the original pointer structure.
-/

namespace KXKextManager

/-- Error codes from KXKextManagerError that the embedded operations use.
The constructor names mirror the kKXKextManagerError... constants. -/
inductive KMError where
  | noError
  | unspecified
  | noMemory
  | validation
  | bootLevel
  | disabledError
  | alreadyLoaded
  | loadedVersionDiffers
  | dependencyLoadedVersionDiffers
  | authentication
  | cache
  | kextNotFound
  | childTask
  deriving DecidableEq, Repr

/-- One kext record (arena entry).  The immutable descriptor data
(bundle identifier, parsed version) and the mutable state flags of a
KXKextRef, plus the two chain links as optional arena handles.  The
fields resolveDependenciesResult, authenticateResult and allDependencies
model the outcomes of the external collaborators KXKextResolveDependencies,
KXKextAuthenticate and KXKextCopyAllDependencies (they live in KXKext.c,
outside this translation unit), as declared in the spec's Module
interface. -/
structure Kext where
  bundleId : Nat
  version : Int
  isValid : Bool
  isEnabled : Bool
  eligibleDuringSafeBoot : Bool
  loadFailed : Bool
  hasAllDependencies : Bool
  isLoaded : Bool
  otherVersionIsLoaded : Bool
  isAuthentic : Bool
  priorVersionKext : Option Nat
  duplicateVersionKext : Option Nat
  repositoryIndex : Nat
  resolveDependenciesResult : KMError
  authenticateResult : KMError
  allDependencies : List Nat
  deriving DecidableEq, Repr

/-- One repository, reduced to the two kext lists the manager consults:
the candidate kexts handed to the version-chain builder and the
bad (disqualified) kext list. -/
structure Repository where
  candidateKexts : List Nat
  badKexts : List Nat
  deriving DecidableEq, Repr

/-- The manager state (struct __KXKextManager, the fields the embedded
operations touch).  candidateKexts is the identifier-to-chain-head
dictionary as an association list.  structuralClearCount is a ghost
instrumentation counter: it counts invocations of the static
__KXKextManagerClearRelationships teardown and exists only so theorems
can speak about how many structural clears a call sequence performs.
resolveDependenciesLog is likewise a ghost log of the kexts on which
KXKextResolveDependencies has been invoked. -/
structure KextManager where
  kexts : List Kext
  repositoryList : List Repository
  candidateKexts : List (Nat × Nat)
  kextsWithMissingDependencies : List Nat
  needsClearRelationships : Bool
  needsCalculateRelationships : Bool
  clearRelationshipsDisableCount : Nat
  safeBoot : Bool
  performsFullTests : Bool
  structuralClearCount : Nat
  resolveDependenciesLog : List Nat
  deriving DecidableEq, Repr

/-! ### Arena and dictionary helpers -/

/-- Replace the element at an index of a list, leaving the list unchanged
when the index is out of range. -/
def listSetAt {α : Type} : List α → Nat → α → List α
  | [], _, _ => []
  | _ :: xs, 0, a => a :: xs
  | x :: xs, n + 1, a => x :: listSetAt xs n a

/-- Apply a function to the element at an index of a list. -/
def listModifyAt {α : Type} (l : List α) (i : Nat) (f : α → α) : List α :=
  match l.get? i with
  | none => l
  | some a => listSetAt l i (f a)

/-- Look up a key in an association list (first match). -/
def dictGet (d : List (Nat × Nat)) (key : Nat) : Option Nat :=
  match d.find? (fun p => p.fst = key) with
  | none => none
  | some p => some p.snd

/-- Set a key in an association list, replacing an existing entry in place
or appending a new one (CFDictionarySetValue). -/
def dictSet (d : List (Nat × Nat)) (key value : Nat) : List (Nat × Nat) :=
  if (d.find? (fun p => p.fst = key)).isSome then
    d.map (fun p => if p.fst = key then (key, value) else p)
  else
    d ++ [(key, value)]

/-- Remove a key from an association list (CFDictionaryRemoveValue). -/
def dictRemove (d : List (Nat × Nat)) (key : Nat) : List (Nat × Nat) :=
  d.filter (fun p => ¬ p.fst = key)

/-- Fetch the kext record for a handle. -/
def kextAt (m : KextManager) (i : Nat) : Option Kext :=
  m.kexts.get? i

/-- Update the kext record for a handle. -/
def updateKext (m : KextManager) (i : Nat) (f : Kext → Kext) : KextManager :=
  { m with kexts := listModifyAt m.kexts i f }

/-- Read the priorVersion link (KXKextGetPriorVersionKext). -/
def kextPrior (m : KextManager) (i : Nat) : Option Nat :=
  (kextAt m i).bind (fun k => k.priorVersionKext)

/-- Read the duplicateVersion link (KXKextGetDuplicateVersionKext). -/
def kextDup (m : KextManager) (i : Nat) : Option Nat :=
  (kextAt m i).bind (fun k => k.duplicateVersionKext)

/-- Set the priorVersion link (_KXKextSetPriorVersionKext). -/
def setPrior (m : KextManager) (i : Nat) (v : Option Nat) : KextManager :=
  updateKext m i (fun k => { k with priorVersionKext := v })

/-- Set the duplicateVersion link (_KXKextSetDuplicateVersionKext). -/
def setDup (m : KextManager) (i : Nat) (v : Option Nat) : KextManager :=
  updateKext m i (fun k => { k with duplicateVersionKext := v })

/-- Read the parsed version (_KXKextGetVersion); 0 for an invalid handle. -/
def kextVersion (m : KextManager) (i : Nat) : Int :=
  ((kextAt m i).map (fun k => k.version)).getD 0

/-- Read the bundle identifier (KXKextGetBundleIdentifier). -/
def kextBundleId (m : KextManager) (i : Nat) : Nat :=
  ((kextAt m i).map (fun k => k.bundleId)).getD 0

/-- Read a boolean state flag, false for an invalid handle. -/
def kextFlag (m : KextManager) (i : Nat) (f : Kext → Bool) : Bool :=
  ((kextAt m i).map f).getD false

/-! ### Relationship invalidation controller -/

/-- Reset both chain links of every kext.  Modelled from the spec: the
repository collaborator call _KXKextRepositoryClearRelationships, invoked
for every repository, makes each repository clear its kexts' version
relationships; the arena holds exactly the repositories' kexts, so the
aggregate effect is resetting every record's links. -/
def clearAllKextLinks (m : KextManager) : KextManager :=
  { m with kexts := m.kexts.map (fun k =>
      { k with priorVersionKext := none, duplicateVersionKext := none }) }

/-- The static teardown __KXKextManagerClearRelationships: every
repository clears its kexts' relationships, the candidate dictionary and
the missing-dependency list are emptied, needsClearRelationships is reset
and needsCalculateRelationships is raised.  Bumps the ghost clear
counter. -/
def structuralClearRelationships (m : KextManager) : KextManager :=
  let m := clearAllKextLinks m
  { m with
    candidateKexts := [],
    kextsWithMissingDependencies := [],
    needsClearRelationships := false,
    needsCalculateRelationships := true,
    structuralClearCount := m.structuralClearCount + 1 }

/-- The teardown __KXKextManagerClearDependencyRelationships: the
repositories clear their kexts' dependency lists (external, carried by
the collaborator outcome fields here, so no arena change) and the
manager's missing-dependency list is emptied. -/
def clearDependencyRelationships (m : KextManager) : KextManager :=
  { m with kextsWithMissingDependencies := [] }

/-- KXKextManagerClearRelationships: defer by raising both stale flags
while the disable count is positive, otherwise perform the structural
teardown.  (The repository loop that follows the teardown in the source
repeats the per-repository clear already contained in the teardown.) -/
def clearRelationshipsOp (m : KextManager) : KextManager :=
  if m.clearRelationshipsDisableCount > 0 then
    { m with needsClearRelationships := true, needsCalculateRelationships := true }
  else
    structuralClearRelationships m

/-- KXKextManagerEnableClearRelationships: decrement the disable count if
positive, then run a pending deferred clear request. -/
def enableClearRelationshipsOp (m : KextManager) : KextManager :=
  let m :=
    if m.clearRelationshipsDisableCount > 0 then
      { m with clearRelationshipsDisableCount := m.clearRelationshipsDisableCount - 1 }
    else m
  if m.needsClearRelationships then clearRelationshipsOp m else m

/-- KXKextManagerDisableClearRelationships: increment the disable count. -/
def disableClearRelationshipsOp (m : KextManager) : KextManager :=
  { m with clearRelationshipsDisableCount := m.clearRelationshipsDisableCount + 1 }

end KXKextManager

namespace KXKextManager

/-- A small concrete manager used by the witness theorems. -/
def sampleManager : KextManager :=
  { kexts := []
    repositoryList := []
    candidateKexts := []
    kextsWithMissingDependencies := []
    needsClearRelationships := false
    needsCalculateRelationships := true
    clearRelationshipsDisableCount := 0
    safeBoot := false
    performsFullTests := false
    structuralClearCount := 0
    resolveDependenciesLog := [] }

end KXKextManager

namespace KXKextManager

/-! ### C1: deferred invalidation -/

/-- C1: after DisableClearRelationships, a clear request, then
EnableClearRelationships, exactly one structural clear runs, it runs only
with the EnableClearRelationships call (never inside the disabled
window, where the disable depth is positive); and after two
DisableClearRelationships calls, one EnableClearRelationships is not
enough — the deferred clear fires only at the second. -/
theorem deferred_invalidation_controller (m : KextManager)
    (hdepth : m.clearRelationshipsDisableCount = 0)
    (hpending : m.needsClearRelationships = false) :
    (disableClearRelationshipsOp m).structuralClearCount = m.structuralClearCount ∧
    (clearRelationshipsOp (disableClearRelationshipsOp m)).structuralClearCount
      = m.structuralClearCount ∧
    (clearRelationshipsOp (disableClearRelationshipsOp m)).clearRelationshipsDisableCount > 0 ∧
    (enableClearRelationshipsOp
        (clearRelationshipsOp (disableClearRelationshipsOp m))).structuralClearCount
      = m.structuralClearCount + 1 ∧
    (enableClearRelationshipsOp
        (clearRelationshipsOp (disableClearRelationshipsOp m))).candidateKexts = [] ∧
    (enableClearRelationshipsOp
        (clearRelationshipsOp (disableClearRelationshipsOp m))).kextsWithMissingDependencies
      = [] ∧
    (enableClearRelationshipsOp
        (clearRelationshipsOp
          (disableClearRelationshipsOp
            (disableClearRelationshipsOp m)))).structuralClearCount
      = m.structuralClearCount ∧
    (enableClearRelationshipsOp
        (enableClearRelationshipsOp
          (clearRelationshipsOp
            (disableClearRelationshipsOp
              (disableClearRelationshipsOp m))))).structuralClearCount
      = m.structuralClearCount + 1 := by
  simp [disableClearRelationshipsOp, clearRelationshipsOp, enableClearRelationshipsOp,
    structuralClearRelationships, clearAllKextLinks, hdepth, hpending]

/-- Witness for C1 at the concrete sample manager. -/
theorem deferred_invalidation_controller_witness :
    sampleManager.clearRelationshipsDisableCount = 0 ∧
    sampleManager.needsClearRelationships = false ∧
    (enableClearRelationshipsOp
        (clearRelationshipsOp
          (disableClearRelationshipsOp sampleManager))).structuralClearCount
      = sampleManager.structuralClearCount + 1 :=
  ⟨by decide, by decide,
    (deferred_invalidation_controller sampleManager (by decide) (by decide)).2.2.2.1⟩

end KXKextManager

namespace KXKextManager

/-! ### Version chain builder -/

/-- The eligibility filter of the builder loop: skip kexts that are not
valid, have failed a load, are ineligible during an active safe boot, or
are disabled. -/
def eligibleCandidate (safeBoot : Bool) (k : Kext) : Bool :=
  k.isValid && !k.loadFailed && (!safeBoot || k.eligibleDuringSafeBoot) && k.isEnabled

/-- Modelled from the spec: _KXKextAddPriorOrDuplicateVersionKext lives in
KXKext.c, outside this translation unit.  Per the spec's builder contract,
a module whose version is not greater than the stored head's is attached
into the duplicate chain of whichever existing node matches its version
exactly, or otherwise linked into the descending priorVersion chain at
the position that keeps versions descending.  The walk starts at the
chain node n; fuel bounds the walk. -/
def addPriorOrDuplicateVersionKext (m : KextManager) (fuel : Nat) (n t : Nat) :
    KextManager :=
  match fuel with
  | 0 => m
  | fuel + 1 =>
    if kextVersion m t = kextVersion m n then
      let m := setDup m t (kextDup m n)
      setDup m n (some t)
    else
      match kextPrior m n with
      | none => setPrior m n (some t)
      | some p =>
        if kextVersion m p < kextVersion m t then
          let m := setPrior m t (some p)
          setPrior m n (some t)
        else
          addPriorOrDuplicateVersionKext m fuel p t

/-- The body of the builder loop in
KXKextManagerCalculateVersionRelationships for one candidate kext:
filter, then insert as new head, as strictly greater head, or into the
existing chain. -/
def insertCandidateKext (m : KextManager) (t : Nat) : KextManager :=
  match kextAt m t with
  | none => m
  | some k =>
    if ¬ eligibleCandidate m.safeBoot k then m
    else
      match dictGet m.candidateKexts k.bundleId with
      | none => { m with candidateKexts := dictSet m.candidateKexts k.bundleId t }
      | some a =>
        if kextVersion m a < kextVersion m t then
          let m := setPrior m t (some a)
          { m with candidateKexts := dictSet m.candidateKexts k.bundleId t }
        else
          addPriorOrDuplicateVersionKext m (m.kexts.length + 1) a t

/-- The candidate kexts of every repository in repository-list order then
module order: the traversal order of the builder loop. -/
def buildTraversal (m : KextManager) : List Nat :=
  (m.repositoryList.map (fun r => r.candidateKexts)).flatten

/-- KXKextManagerCalculateVersionRelationships: unconditionally clear the
relationship structure and the dependency relationships, rebuild the
candidate dictionary and version chains from every repository's candidate
kexts, and lower the needsCalculateRelationships flag. -/
def calculateVersionRelationships (m : KextManager) : KextManager :=
  let m0 := clearDependencyRelationships (structuralClearRelationships m)
  let m1 := (buildTraversal m).foldl insertCandidateKext m0
  { m1 with needsCalculateRelationships := false }

/-! ### Dependency closure resolver -/

/-- Append a kext to the missing-dependency list
(CFArrayAppendValue on kextsWithMissingDependencies). -/
def addMissing (m : KextManager) (t : Nat) : KextManager :=
  { m with kextsWithMissingDependencies := m.kextsWithMissingDependencies ++ [t] }

/-- Ghost-log an invocation of the external KXKextResolveDependencies. -/
def logResolve (m : KextManager) (t : Nat) : KextManager :=
  { m with resolveDependenciesLog := m.resolveDependenciesLog ++ [t] }

/-- Pass 1 inner loop of KXKextManagerResolveAllKextDependencies: ask
every kext in a duplicate chain to resolve its dependencies.  The
resolution outcome itself is external (KXKext.c); the walk is recorded in
the ghost log and never mutates chain shape. -/
def pass1DupWalk (m : KextManager) (fuel : Nat) (d : Option Nat) : KextManager :=
  match fuel, d with
  | 0, _ => m
  | _ + 1, none => m
  | fuel + 1, some d0 =>
    pass1DupWalk (logResolve m d0) fuel (kextDup (logResolve m d0) d0)

/-- Pass 1 outer loop of KXKextManagerResolveAllKextDependencies: walk the
priorVersion chain, resolving each node then its duplicate chain. -/
def pass1Walk (m : KextManager) (fuel : Nat) (this : Option Nat) : KextManager :=
  match fuel, this with
  | 0, _ => m
  | _ + 1, none => m
  | fuel + 1, some t =>
    let m := logResolve m t
    let m := pass1DupWalk m fuel (kextDup m t)
    pass1Walk m fuel (kextPrior m t)

/-- Pass 2 peek loop: a node passed the dependency test, so every node of
its duplicate chain is checked by peeking ahead; a failing duplicate is
recorded as missing and unlinked from the duplicate sub-chain. -/
def resolveDupPeekLoop (m : KextManager) (fuel : Nat) (dupKext : Nat)
    (peek : Option Nat) : KextManager :=
  match fuel, peek with
  | 0, _ => m
  | _ + 1, none => m
  | fuel + 1, some pk =>
    if ¬ kextFlag m pk (fun k => k.hasAllDependencies) then
      let m := addMissing m pk
      let m := setDup m dupKext (kextDup m pk)
      resolveDupPeekLoop m fuel dupKext (kextDup m pk)
    else
      resolveDupPeekLoop m fuel pk (kextDup m pk)

/-- Pass 2 main loop of KXKextManagerResolveAllKextDependencies for one
identity: walk the priorVersion chain from the snapshotted head; a node
without all its dependencies is recorded as missing and spliced out
(its duplicate promoted into its place when one exists, the dictionary
entry redirected or removed when it was the head); a passing node has its
duplicate chain scrubbed by the peek loop. -/
def resolveChainLoop (m : KextManager) (fuel : Nat) (ident : Nat)
    (thisKext prevKext : Option Nat) : KextManager :=
  match fuel, thisKext with
  | 0, _ => m
  | _ + 1, none => m
  | fuel + 1, some t =>
    let nextKext := kextPrior m t
    let dupKext := kextDup m t
    if ¬ kextFlag m t (fun k => k.hasAllDependencies) then
      let m := addMissing m t
      match dupKext with
      | none =>
        match prevKext with
        | some p =>
          resolveChainLoop (setPrior m p nextKext) fuel ident nextKext (some p)
        | none =>
          match nextKext with
          | some n =>
            resolveChainLoop
              { m with candidateKexts := dictSet m.candidateKexts ident n }
              fuel ident (some n) none
          | none =>
            resolveChainLoop
              { m with candidateKexts := dictRemove m.candidateKexts ident }
              fuel ident none none
      | some d =>
        match prevKext with
        | some p =>
          let m := setPrior m p (some d)
          let m := setPrior m d nextKext
          resolveChainLoop m fuel ident (some d) (some p)
        | none =>
          let m := { m with candidateKexts := dictSet m.candidateKexts ident d }
          let m := setPrior m d nextKext
          resolveChainLoop m fuel ident (some d) none
    else
      let m :=
        match dupKext with
        | none => m
        | some d => resolveDupPeekLoop m fuel d (kextDup m d)
      resolveChainLoop m fuel ident nextKext (some t)

/-- KXKextManagerResolveAllKextDependencies: snapshot the candidate
dictionary, have every chain member resolve its dependencies (pass 1),
then splice out every module lacking a complete dependency set (pass 2).
The full-tests tail asks the repositories to resolve their bad kexts'
dependencies for reporting, which is external and leaves the manager
state unchanged.  The stale flags are not consulted. -/
def resolveAllKextDependencies (m : KextManager) : KextManager :=
  let snapshot := m.candidateKexts
  let fuel := m.kexts.length + 1
  let m := snapshot.foldl (fun acc p => pass1Walk acc fuel (some p.snd)) m
  snapshot.foldl (fun acc p => resolveChainLoop acc fuel p.fst (some p.snd) none) m

/-- List the priorVersion chain starting at a handle, bounded by fuel. -/
def priorChain (m : KextManager) : Nat → Nat → List Nat
  | 0, _ => []
  | fuel + 1, t =>
    t :: (match kextPrior m t with
          | none => []
          | some p => priorChain m fuel p)

end KXKextManager

namespace KXKextManager

/-! ### C4 and C5: splice pass scenarios -/

/-- Build a kext record for a chain scenario: identity, version, the
hasAllDependencies outcome, and the two links; every other flag is
benign. -/
def mkChainKext (ident : Nat) (vers : Int) (deps : Bool)
    (prior dup : Option Nat) : Kext :=
  { bundleId := ident
    version := vers
    isValid := true
    isEnabled := true
    eligibleDuringSafeBoot := true
    loadFailed := false
    hasAllDependencies := deps
    isLoaded := false
    otherVersionIsLoaded := false
    isAuthentic := true
    priorVersionKext := prior
    duplicateVersionKext := dup
    repositoryIndex := 0
    resolveDependenciesResult := KMError.noError
    authenticateResult := KMError.noError
    allDependencies := [] }

/-- Build a manager holding a given arena and candidate dictionary, with
relationships considered up to date. -/
def mkChainManager (ks : List Kext) (dict : List (Nat × Nat)) : KextManager :=
  { kexts := ks
    repositoryList := []
    candidateKexts := dict
    kextsWithMissingDependencies := []
    needsClearRelationships := false
    needsCalculateRelationships := false
    clearRelationshipsDisableCount := 0
    safeBoot := false
    performsFullTests := false
    structuralClearCount := 0
    resolveDependenciesLog := [] }

/-- The C4 scenario: one identity with the version chain [5,4,3,2,1]
(handles 0..4), no duplicates, and only the version-3 node lacking its
dependencies. -/
def spliceScenario : KextManager :=
  mkChainManager
    [mkChainKext 7 5 true (some 1) none,
     mkChainKext 7 4 true (some 2) none,
     mkChainKext 7 3 false (some 3) none,
     mkChainKext 7 2 true (some 4) none,
     mkChainKext 7 1 true none none]
    [(7, 0)]

/-- C4: on the chain [5,4,3,2,1] where only version 3 is missing its
dependencies and no node has duplicates, the splice pass leaves the
head chain [5,4,2,1] reachable from the Candidate Set entry in
priorVersion order, and the version-3 node (handle 2) lands in the
Missing-Dependency List exactly once. -/
theorem resolve_splice_preserves_order :
    dictGet (resolveAllKextDependencies spliceScenario).candidateKexts 7 = some 0 ∧
    (priorChain (resolveAllKextDependencies spliceScenario) 6 0).map
        (kextVersion (resolveAllKextDependencies spliceScenario)) = [5, 4, 2, 1] ∧
    (resolveAllKextDependencies spliceScenario).kextsWithMissingDependencies = [2] ∧
    ((resolveAllKextDependencies spliceScenario).kextsWithMissingDependencies).count 2
      = 1 := by
  decide

/-- The C5 head scenario: 4a (handle 0) heads the chain with duplicate 4b
(handle 1) and priorVersion the version-3 node (handle 2); 4a lacks its
dependencies, 4b does not. -/
def dupPromotionHeadScenario : KextManager :=
  mkChainManager
    [mkChainKext 9 4 false (some 2) (some 1),
     mkChainKext 9 4 true none none,
     mkChainKext 9 3 true none none]
    [(9, 0)]

/-- The C5 interior scenario: the chain is 5 (handle 0) then 4a
(handle 1, duplicate 4b = handle 2) then 3 (handle 3); 4a lacks its
dependencies, every other node has them. -/
def dupPromotionMidScenario : KextManager :=
  mkChainManager
    [mkChainKext 9 5 true (some 1) none,
     mkChainKext 9 4 false (some 3) (some 2),
     mkChainKext 9 4 true none none,
     mkChainKext 9 3 true none none]
    [(9, 0)]

/-- C5: when the node holding the structural position at version 4 lacks
its dependencies but its duplicate 4b does not, the splice pass promotes
4b into the structural place — as Candidate Set head when 4a was the
head, as the previous node's successor otherwise — and 4b inherits the
priorVersion link 4a had. -/
theorem resolve_duplicate_promotion :
    (dictGet (resolveAllKextDependencies dupPromotionHeadScenario).candidateKexts 9
        = some 1 ∧
      kextPrior (resolveAllKextDependencies dupPromotionHeadScenario) 1 = some 2 ∧
      (resolveAllKextDependencies dupPromotionHeadScenario).kextsWithMissingDependencies
        = [0]) ∧
    (dictGet (resolveAllKextDependencies dupPromotionMidScenario).candidateKexts 9
        = some 0 ∧
      kextPrior (resolveAllKextDependencies dupPromotionMidScenario) 0 = some 2 ∧
      kextPrior (resolveAllKextDependencies dupPromotionMidScenario) 2 = some 3 ∧
      (resolveAllKextDependencies dupPromotionMidScenario).kextsWithMissingDependencies
        = [1] ∧
      (priorChain (resolveAllKextDependencies dupPromotionMidScenario) 5 0).map
          (kextVersion (resolveAllKextDependencies dupPromotionMidScenario))
        = [5, 4, 3]) := by
  decide

end KXKextManager

namespace KXKextManager

/-! ### Reading accessors -/

/-- Walk a duplicate chain collecting handles, bounded by fuel. -/
def copyDupWalk (m : KextManager) : Nat → Option Nat → List Nat
  | 0, _ => []
  | _ + 1, none => []
  | fuel + 1, some d => d :: copyDupWalk m fuel (kextDup m d)

/-- The inner loop of KXKextManagerCopyAllKexts below a chain head: each
priorVersion node is collected followed by its duplicate chain. -/
def copyPriorWalk (m : KextManager) : Nat → Option Nat → List Nat
  | 0, _ => []
  | _ + 1, none => []
  | fuel + 1, some t =>
    (t :: copyDupWalk m fuel (kextDup m t)) ++ copyPriorWalk m fuel (kextPrior m t)

/-- KXKextManagerCopyAllKexts: collect every candidate dictionary head,
the nodes below it (with their duplicate chains), then every
repository's bad kexts.  The stale flags are not consulted and the
manager state is left untouched. -/
def copyAllKexts (m : KextManager) : List Nat :=
  (m.candidateKexts.foldl
      (fun acc p =>
        acc ++ (p.snd :: copyPriorWalk m (m.kexts.length + 1) (kextPrior m p.snd))) [])
    ++ (m.repositoryList.map (fun r => r.badKexts)).flatten

/-- The stale-flag refresh performed by the reading accessors: clear the
relationship structure if a clear is pending, then rebuild the version
relationships if they are stale. -/
def refreshRelationships (m : KextManager) : KextManager :=
  let m := if m.needsClearRelationships then structuralClearRelationships m else m
  if m.needsCalculateRelationships then calculateVersionRelationships m else m

/-- Walk a priorVersion chain for the node with an exact version. -/
def findVersionInChain (m : KextManager) : Nat → Option Nat → Int → Option Nat
  | 0, _, _ => none
  | _ + 1, none, _ => none
  | fuel + 1, some t, v =>
    if kextVersion m t = v then some t
    else findVersionInChain m fuel (kextPrior m t) v

/-- The accessor __KXKextManagerGetKextWithIdentifierAndVersionNumber:
refresh the relationship structure, look the identifier up in the
candidate dictionary, and when a version is requested walk the chain for
that exact version.  Returns the result together with the (possibly
rebuilt) manager state. -/
def getKextWithIdentifierAndVersionNumber (m : KextManager) (ident : Nat)
    (vers : Option Int) : Option Nat × KextManager :=
  let m := refreshRelationships m
  let found := dictGet m.candidateKexts ident
  match vers with
  | none => (found, m)
  | some v => (findVersionInChain m (m.kexts.length + 1) found v, m)

/-- KXKextManagerGetKextWithIdentifier: the version-free lookup. -/
def getKextWithIdentifier (m : KextManager) (ident : Nat) : Option Nat × KextManager :=
  getKextWithIdentifierAndVersionNumber m ident none

/-! ### C2: stale-flag checks before reading the candidate set -/

/-- A stale manager: the repository holds an eligible kext (handle 0,
identity 3) but the candidate dictionary is empty and
needsCalculateRelationships is raised. -/
def staleScenario : KextManager :=
  { mkChainManager [mkChainKext 3 1 true none none] [] with
    repositoryList := [{ candidateKexts := [0], badKexts := [] }],
    needsCalculateRelationships := true }

/-- C2 counterexample: on a stale manager, KXKextManagerCopyAllKexts
reads the stale (empty) candidate set rather than rebuilding, and
KXKextManagerResolveAllKextDependencies leaves the stale flag raised —
neither triggers the clear-and-rebuild the claim requires of every
candidate-set reader. -/
theorem stale_read_counterexample :
    staleScenario.needsCalculateRelationships = true ∧
    copyAllKexts staleScenario = [] ∧
    copyAllKexts (calculateVersionRelationships staleScenario) = [0] ∧
    copyAllKexts staleScenario
      ≠ copyAllKexts (calculateVersionRelationships staleScenario) ∧
    (resolveAllKextDependencies staleScenario).needsCalculateRelationships = true := by
  decide

end KXKextManager

namespace KXKextManager

/-- The pair of stale flags, used to state that an operation never
touches them. -/
def mgrFlags (m : KextManager) : Bool × Bool :=
  (m.needsCalculateRelationships, m.needsClearRelationships)

/-- Pass 1 of the resolver never touches the stale flags. -/
theorem pass1DupWalk_mgrFlags : ∀ (fuel : Nat) (d : Option Nat) (m : KextManager),
    mgrFlags (pass1DupWalk m fuel d) = mgrFlags m := by
  intro fuel
  induction fuel with
  | zero => intro d m; cases d <;> rfl
  | succ n ih =>
    intro d m
    cases d with
    | none => rfl
    | some d0 =>
      show mgrFlags (pass1DupWalk (logResolve m d0) n
        (kextDup (logResolve m d0) d0)) = mgrFlags m
      rw [ih]
      rfl

/-- Pass 1 outer walk never touches the stale flags. -/
theorem pass1Walk_mgrFlags : ∀ (fuel : Nat) (t : Option Nat) (m : KextManager),
    mgrFlags (pass1Walk m fuel t) = mgrFlags m := by
  intro fuel
  induction fuel with
  | zero => intro t m; cases t <;> rfl
  | succ n ih =>
    intro t m
    cases t with
    | none => rfl
    | some t0 =>
      show mgrFlags (pass1Walk
        (pass1DupWalk (logResolve m t0) n (kextDup (logResolve m t0) t0)) n
        (kextPrior (pass1DupWalk (logResolve m t0) n
          (kextDup (logResolve m t0) t0)) t0)) = mgrFlags m
      rw [ih, pass1DupWalk_mgrFlags]
      rfl

/-- The duplicate peek loop of pass 2 never touches the stale flags. -/
theorem resolveDupPeekLoop_mgrFlags :
    ∀ (fuel : Nat) (dk : Nat) (peek : Option Nat) (m : KextManager),
    mgrFlags (resolveDupPeekLoop m fuel dk peek) = mgrFlags m := by
  intro fuel
  induction fuel with
  | zero => intro dk peek m; cases peek <;> rfl
  | succ n ih =>
    intro dk peek m
    cases peek with
    | none => rfl
    | some pk =>
      simp only [resolveDupPeekLoop]
      split
      · rw [ih]; rfl
      · rw [ih]

/-- The pass 2 chain loop never touches the stale flags. -/
theorem resolveChainLoop_mgrFlags :
    ∀ (fuel : Nat) (ident : Nat) (tk pk : Option Nat) (m : KextManager),
    mgrFlags (resolveChainLoop m fuel ident tk pk) = mgrFlags m := by
  intro fuel
  induction fuel with
  | zero => intro ident tk pk m; cases tk <;> rfl
  | succ n ih =>
    intro ident tk pk m
    cases tk with
    | none => rfl
    | some t =>
      simp only [resolveChainLoop]
      split
      · split
        · split
          · rw [ih]; rfl
          · split
            · rw [ih]; rfl
            · rw [ih]; rfl
        · split
          · rw [ih]; rfl
          · rw [ih]; rfl
      · split
        · rw [ih]
        · rw [ih, resolveDupPeekLoop_mgrFlags]

/-- Folding a flag-preserving step over a list preserves the flags. -/
theorem foldl_mgrFlags {α : Type} (f : KextManager → α → KextManager)
    (hf : ∀ acc p, mgrFlags (f acc p) = mgrFlags acc) :
    ∀ (l : List α) (m : KextManager), mgrFlags (l.foldl f m) = mgrFlags m := by
  intro l
  induction l with
  | nil => intro m; rfl
  | cons p rest ih => intro m; rw [List.foldl_cons, ih, hf]

/-- KXKextManagerResolveAllKextDependencies never touches the stale
flags: it performs no staleness check and no rebuild. -/
theorem resolveAllKextDependencies_mgrFlags (m : KextManager) :
    mgrFlags (resolveAllKextDependencies m) = mgrFlags m := by
  show mgrFlags (List.foldl _ (List.foldl _ m _) _) = mgrFlags m
  rw [foldl_mgrFlags, foldl_mgrFlags]
  · intro acc p; exact pass1Walk_mgrFlags _ _ _
  · intro acc p; exact resolveChainLoop_mgrFlags _ _ _ _ _

end KXKextManager

namespace KXKextManager

/-- Duplicate-chain collection only depends on the kext arena. -/
theorem copyDupWalk_congr {m1 m2 : KextManager} (hk : m1.kexts = m2.kexts) :
    ∀ (fuel : Nat) (d : Option Nat), copyDupWalk m1 fuel d = copyDupWalk m2 fuel d := by
  intro fuel
  induction fuel with
  | zero => intro d; cases d <;> rfl
  | succ n ih =>
    intro d
    cases d with
    | none => rfl
    | some d0 => simp [copyDupWalk, kextDup, kextAt, hk, ih]

/-- Prior-chain collection only depends on the kext arena. -/
theorem copyPriorWalk_congr {m1 m2 : KextManager} (hk : m1.kexts = m2.kexts) :
    ∀ (fuel : Nat) (t : Option Nat), copyPriorWalk m1 fuel t = copyPriorWalk m2 fuel t := by
  intro fuel
  induction fuel with
  | zero => intro t; cases t <;> rfl
  | succ n ih =>
    intro t
    cases t with
    | none => rfl
    | some t0 =>
      simp [copyPriorWalk, kextDup, kextPrior, kextAt, hk, ih, copyDupWalk_congr hk]

/-- KXKextManagerCopyAllKexts only depends on the arena, the candidate
dictionary and the repository list — not on the stale flags. -/
theorem copyAllKexts_congr {m1 m2 : KextManager} (hk : m1.kexts = m2.kexts)
    (hc : m1.candidateKexts = m2.candidateKexts)
    (hr : m1.repositoryList = m2.repositoryList) :
    copyAllKexts m1 = copyAllKexts m2 := by
  unfold copyAllKexts
  simp only [kextPrior, kextAt, hk, hc, hr, copyPriorWalk_congr hk]

/-- C2 amended: the lookup accessors (here
__KXKextManagerGetKextWithIdentifierAndVersionNumber, shared by every
KXKextManagerGetKextWithIdentifier... entry point) do check the stale
flags and rebuild the candidate set before reading it; but
KXKextManagerResolveAllKextDependencies and KXKextManagerCopyAllKexts
read the candidate set without consulting the stale flags: the resolver
leaves the flags exactly as found, and CopyAllKexts returns the same
stale read whether or not the flags are raised. -/
theorem accessor_stale_check_amended (m : KextManager) (ident : Nat)
    (hclear : m.needsClearRelationships = false)
    (hcalc : m.needsCalculateRelationships = true) :
    (getKextWithIdentifier m ident).fst
        = dictGet (calculateVersionRelationships m).candidateKexts ident ∧
    (getKextWithIdentifier m ident).snd = calculateVersionRelationships m ∧
    (calculateVersionRelationships m).needsCalculateRelationships = false ∧
    (resolveAllKextDependencies m).needsCalculateRelationships = true ∧
    (resolveAllKextDependencies m).needsClearRelationships = false ∧
    copyAllKexts m
      = copyAllKexts
          { m with needsCalculateRelationships := false,
                   needsClearRelationships := false } := by
  have hres := resolveAllKextDependencies_mgrFlags m
  refine ⟨?_, ?_, rfl, ?_, ?_, copyAllKexts_congr rfl rfl rfl⟩
  · simp [getKextWithIdentifier, getKextWithIdentifierAndVersionNumber,
      refreshRelationships, hclear, hcalc]
  · simp [getKextWithIdentifier, getKextWithIdentifierAndVersionNumber,
      refreshRelationships, hclear, hcalc]
  · have := congrArg Prod.fst hres
    simpa [mgrFlags, hcalc] using this
  · have := congrArg Prod.snd hres
    simpa [mgrFlags, hclear] using this

/-- Witness for the amended C2 at the stale scenario manager. -/
theorem accessor_stale_check_amended_witness :
    staleScenario.needsClearRelationships = false ∧
    staleScenario.needsCalculateRelationships = true ∧
    (getKextWithIdentifier staleScenario 3).fst
      = dictGet (calculateVersionRelationships staleScenario).candidateKexts 3 :=
  ⟨by decide, by decide,
    (accessor_stale_check_amended staleScenario 3 (by decide) (by decide)).1⟩

end KXKextManager

namespace KXKextManager

/-! ### List and dictionary lemmas -/

/-- Reading back an index-bounded list write. -/
theorem listSetAt_get {α : Type} :
    ∀ (l : List α) (i : Nat) (a : α) (j : Nat),
    (listSetAt l i a).get? j = if j = i then (l.get? i).map (fun _ => a) else l.get? j := by
  intro l
  induction l with
  | nil => intro i a j; simp [listSetAt]
  | cons x xs ih =>
    intro i a j
    cases i with
    | zero =>
      cases j with
      | zero => simp [listSetAt]
      | succ j0 => simp [listSetAt]
    | succ i0 =>
      cases j with
      | zero => simp [listSetAt]
      | succ j0 => simpa [listSetAt, Nat.succ_inj] using ih i0 a j0

/-- Reading back an index-bounded list modification. -/
theorem listModifyAt_get {α : Type} (l : List α) (i : Nat) (f : α → α) (j : Nat) :
    (listModifyAt l i f).get? j = if j = i then (l.get? j).map f else l.get? j := by
  unfold listModifyAt
  by_cases hj : j = i
  · subst hj
    rw [if_pos rfl]
    cases h : l.get? j with
    | none => rw [h]; rfl
    | some a => rw [listSetAt_get, if_pos rfl, h]; rfl
  · rw [if_neg hj]
    cases h : l.get? i with
    | none => rfl
    | some a => rw [listSetAt_get, if_neg hj]

/-- Reading back a kext-record update. -/
theorem kextAt_updateKext (m : KextManager) (i : Nat) (f : Kext → Kext) (j : Nat) :
    kextAt (updateKext m i f) j = if j = i then (kextAt m j).map f else kextAt m j := by
  unfold kextAt updateKext
  exact listModifyAt_get m.kexts i f j

/-- Head-step unfolding of the association-list lookup. -/
theorem dictGet_cons (a : Nat × Nat) (rest : List (Nat × Nat)) (k2 : Nat) :
    dictGet (a :: rest) k2 = if a.fst = k2 then some a.snd else dictGet rest k2 := by
  unfold dictGet
  by_cases hh : a.fst = k2 <;> simp [List.find?, hh]

/-- Appending a fresh entry behind the dictionary only affects lookups
the existing entries miss. -/
theorem dictGet_append_single (d : List (Nat × Nat)) (key value k2 : Nat) :
    dictGet (d ++ [(key, value)]) k2 =
      if (dictGet d k2).isSome then dictGet d k2
      else if k2 = key then some value else none := by
  induction d with
  | nil =>
    by_cases h : k2 = key
    · subst h; simp [dictGet_cons, dictGet]
    · have h2 : ¬ (key = k2) := fun hh => h hh.symm
      simp [dictGet_cons, dictGet, h, h2]
  | cons a rest ih =>
    by_cases ha : a.fst = k2
    · simp [dictGet_cons, ha]
    · simpa [dictGet_cons, ha] using ih

/-- The in-place dictionary rewrite leaves lookups of other keys
unchanged. -/
theorem dictGet_map_other (d : List (Nat × Nat)) (key value k2 : Nat) (h : k2 ≠ key) :
    dictGet (d.map (fun p => if p.fst = key then (key, value) else p)) k2
      = dictGet d k2 := by
  have hk2 : ¬ (key = k2) := fun hh => h hh.symm
  induction d with
  | nil => rfl
  | cons a rest ih =>
    by_cases ha : a.fst = key
    · have ha2 : ¬ (a.fst = k2) := by rw [ha]; exact hk2
      simpa [dictGet_cons, ha, hk2, ha2] using ih
    · by_cases ha2 : a.fst = k2
      · simp [dictGet_cons, ha, ha2, h]
      · simpa [dictGet_cons, ha, ha2] using ih

/-- The in-place dictionary rewrite hits the stored key when present. -/
theorem dictGet_map_self (d : List (Nat × Nat)) (key value : Nat)
    (h : (d.find? (fun p => p.fst = key)).isSome = true) :
    dictGet (d.map (fun p => if p.fst = key then (key, value) else p)) key
      = some value := by
  induction d with
  | nil => simp [List.find?] at h
  | cons a rest ih =>
    by_cases ha : a.fst = key
    · simp [dictGet_cons, ha]
    · simp only [List.find?, decide_eq_true_eq, ha, decide_False] at h
      have h2 := ih (by simpa using h)
      simpa [dictGet_cons, ha] using h2

/-- Characterization of dictionary writes (CFDictionarySetValue). -/
theorem dictGet_dictSet (d : List (Nat × Nat)) (key value k2 : Nat) :
    dictGet (dictSet d key value) k2 = if k2 = key then some value else dictGet d k2 := by
  unfold dictSet
  by_cases hpresent : (d.find? (fun p => p.fst = key)).isSome = true
  · rw [if_pos hpresent]
    by_cases hk : k2 = key
    · subst hk; rw [if_pos rfl]; exact dictGet_map_self d k2 value hpresent
    · rw [if_neg hk]; exact dictGet_map_other d key value k2 hk
  · rw [if_neg hpresent, dictGet_append_single]
    by_cases hk : k2 = key
    · subst hk
      have hnone : dictGet d k2 = none := by
        unfold dictGet
        cases hf : d.find? (fun p => p.fst = k2) with
        | none => rfl
        | some p => rw [hf] at hpresent; simp at hpresent
      simp [hnone]
    · by_cases hsome : (dictGet d k2).isSome
      · simp [hsome, hk]
      · cases hd : dictGet d k2 with
        | none => simp [hd, hk]
        | some p => rw [hd] at hsome; simp at hsome

/-- Presence in the dictionary agrees between lookup and the membership
test used by dictSet. -/
theorem dictGet_isSome_iff (d : List (Nat × Nat)) (key : Nat) :
    (dictGet d key).isSome = (d.find? (fun p => p.fst = key)).isSome := by
  unfold dictGet
  cases d.find? (fun p => p.fst = key) <;> rfl

end KXKextManager

namespace KXKextManager

/-! ### Stability of kext projections under link updates -/

/-- The four-way candidate test of the builder, applied through a
handle. -/
def candidateOK (m : KextManager) (i : Nat) : Bool :=
  match kextAt m i with
  | none => false
  | some k => eligibleCandidate m.safeBoot k

/-- Writing a priorVersion link never changes the candidate test. -/
theorem candidateOK_setPrior (m : KextManager) (i : Nat) (v : Option Nat) (j : Nat) :
    candidateOK (setPrior m i v) j = candidateOK m j := by
  unfold candidateOK setPrior
  rw [kextAt_updateKext]
  by_cases hj : j = i
  · rw [if_pos hj]; cases kextAt m j <;> rfl
  · rw [if_neg hj]; rfl

/-- Writing a duplicateVersion link never changes the candidate test. -/
theorem candidateOK_setDup (m : KextManager) (i : Nat) (v : Option Nat) (j : Nat) :
    candidateOK (setDup m i v) j = candidateOK m j := by
  unfold candidateOK setDup
  rw [kextAt_updateKext]
  by_cases hj : j = i
  · rw [if_pos hj]; cases kextAt m j <;> rfl
  · rw [if_neg hj]; rfl

/-- Writing a priorVersion link never changes a version. -/
theorem kextVersion_setPrior (m : KextManager) (i : Nat) (v : Option Nat) (j : Nat) :
    kextVersion (setPrior m i v) j = kextVersion m j := by
  unfold kextVersion setPrior
  rw [kextAt_updateKext]
  by_cases hj : j = i
  · rw [if_pos hj]; cases kextAt m j <;> rfl
  · rw [if_neg hj]

/-- Writing a duplicateVersion link never changes a version. -/
theorem kextVersion_setDup (m : KextManager) (i : Nat) (v : Option Nat) (j : Nat) :
    kextVersion (setDup m i v) j = kextVersion m j := by
  unfold kextVersion setDup
  rw [kextAt_updateKext]
  by_cases hj : j = i
  · rw [if_pos hj]; cases kextAt m j <;> rfl
  · rw [if_neg hj]

/-- Writing a priorVersion link never changes a bundle identifier. -/
theorem kextBundleId_setPrior (m : KextManager) (i : Nat) (v : Option Nat) (j : Nat) :
    kextBundleId (setPrior m i v) j = kextBundleId m j := by
  unfold kextBundleId setPrior
  rw [kextAt_updateKext]
  by_cases hj : j = i
  · rw [if_pos hj]; cases kextAt m j <;> rfl
  · rw [if_neg hj]

/-- Writing a duplicateVersion link never changes a bundle identifier. -/
theorem kextBundleId_setDup (m : KextManager) (i : Nat) (v : Option Nat) (j : Nat) :
    kextBundleId (setDup m i v) j = kextBundleId m j := by
  unfold kextBundleId setDup
  rw [kextAt_updateKext]
  by_cases hj : j = i
  · rw [if_pos hj]; cases kextAt m j <;> rfl
  · rw [if_neg hj]

/-- Writing a priorVersion link leaves duplicate links alone. -/
theorem kextDup_setPrior (m : KextManager) (i : Nat) (v : Option Nat) (j : Nat) :
    kextDup (setPrior m i v) j = kextDup m j := by
  unfold kextDup setPrior kextAt updateKext
  rw [listModifyAt_get]
  by_cases hj : j = i
  · rw [if_pos hj]; cases m.kexts.get? j <;> rfl
  · rw [if_neg hj]

/-- Writing a duplicateVersion link leaves prior links alone. -/
theorem kextPrior_setDup (m : KextManager) (i : Nat) (v : Option Nat) (j : Nat) :
    kextPrior (setDup m i v) j = kextPrior m j := by
  unfold kextPrior setDup kextAt updateKext
  rw [listModifyAt_get]
  by_cases hj : j = i
  · rw [if_pos hj]; cases m.kexts.get? j <;> rfl
  · rw [if_neg hj]

/-- Reading back a priorVersion write. -/
theorem kextPrior_setPrior (m : KextManager) (i : Nat) (v : Option Nat) (j : Nat) :
    kextPrior (setPrior m i v) j
      = if j = i then (kextAt m j).bind (fun _ => v) else kextPrior m j := by
  unfold kextPrior setPrior
  rw [kextAt_updateKext]
  by_cases hj : j = i
  · rw [if_pos hj, if_pos hj]; cases kextAt m j <;> rfl
  · rw [if_neg hj, if_neg hj]

/-- Reading back a duplicateVersion write. -/
theorem kextDup_setDup (m : KextManager) (i : Nat) (v : Option Nat) (j : Nat) :
    kextDup (setDup m i v) j
      = if j = i then (kextAt m j).bind (fun _ => v) else kextDup m j := by
  unfold kextDup setDup
  rw [kextAt_updateKext]
  by_cases hj : j = i
  · rw [if_pos hj, if_pos hj]; cases kextAt m j <;> rfl
  · rw [if_neg hj, if_neg hj]

/-- Every chain link points at a kext passing the candidate test. -/
def LinksOK (m : KextManager) : Prop :=
  ∀ i j, kextPrior m i = some j ∨ kextDup m i = some j → candidateOK m j = true

/-- A priorVersion write whose target passes the candidate test preserves
the link invariant. -/
theorem linksOK_setPrior (m : KextManager) (i : Nat) (v : Option Nat)
    (hv : ∀ x, v = some x → candidateOK m x = true) (h : LinksOK m) :
    LinksOK (setPrior m i v) := by
  intro a b hab
  rw [candidateOK_setPrior]
  rcases hab with hp | hd
  · rw [kextPrior_setPrior] at hp
    by_cases ha : a = i
    · rw [if_pos ha] at hp
      cases hk : kextAt m a with
      | none => rw [hk] at hp; cases hp
      | some k => rw [hk] at hp; exact hv b hp
    · rw [if_neg ha] at hp; exact h a b (Or.inl hp)
  · rw [kextDup_setPrior] at hd; exact h a b (Or.inr hd)

/-- A duplicateVersion write whose target passes the candidate test
preserves the link invariant. -/
theorem linksOK_setDup (m : KextManager) (i : Nat) (v : Option Nat)
    (hv : ∀ x, v = some x → candidateOK m x = true) (h : LinksOK m) :
    LinksOK (setDup m i v) := by
  intro a b hab
  rw [candidateOK_setDup]
  rcases hab with hp | hd
  · rw [kextPrior_setDup] at hp; exact h a b (Or.inl hp)
  · rw [kextDup_setDup] at hd
    by_cases ha : a = i
    · rw [if_pos ha] at hd
      cases hk : kextAt m a with
      | none => rw [hk] at hd; cases hd
      | some k => rw [hk] at hd; exact hv b hd
    · rw [if_neg ha] at hd; exact h a b (Or.inr hd)

end KXKextManager

namespace KXKextManager

/-- The chain-insertion helper never touches the candidate dictionary. -/
theorem addPriorOrDup_candidateKexts :
    ∀ (fuel : Nat) (n t : Nat) (m : KextManager),
    (addPriorOrDuplicateVersionKext m fuel n t).candidateKexts = m.candidateKexts := by
  intro fuel
  induction fuel with
  | zero => intro n t m; rfl
  | succ f ih =>
    intro n t m
    simp only [addPriorOrDuplicateVersionKext]
    split
    · rfl
    · split
      · rfl
      · split
        · rfl
        · exact ih _ _ _

/-- The chain-insertion helper preserves the candidate test, version and
bundle identifier of every handle. -/
theorem addPriorOrDup_stable :
    ∀ (fuel : Nat) (n t : Nat) (m : KextManager) (j : Nat),
    candidateOK (addPriorOrDuplicateVersionKext m fuel n t) j = candidateOK m j ∧
    kextVersion (addPriorOrDuplicateVersionKext m fuel n t) j = kextVersion m j ∧
    kextBundleId (addPriorOrDuplicateVersionKext m fuel n t) j = kextBundleId m j := by
  intro fuel
  induction fuel with
  | zero => intro n t m j; exact ⟨rfl, rfl, rfl⟩
  | succ f ih =>
    intro n t m j
    simp only [addPriorOrDuplicateVersionKext]
    split
    · simp [candidateOK_setDup, kextVersion_setDup, kextBundleId_setDup]
    · split
      · simp [candidateOK_setPrior, kextVersion_setPrior, kextBundleId_setPrior]
      · split
        · simp [candidateOK_setPrior, kextVersion_setPrior, kextBundleId_setPrior]
        · exact ih _ _ _ _

/-- The chain-insertion helper preserves the link invariant when the
inserted kext passes the candidate test. -/
theorem addPriorOrDup_linksOK :
    ∀ (fuel : Nat) (n t : Nat) (m : KextManager),
    candidateOK m t = true → LinksOK m →
    LinksOK (addPriorOrDuplicateVersionKext m fuel n t) := by
  intro fuel
  induction fuel with
  | zero => intro n t m _ h; exact h
  | succ f ih =>
    intro n t m ht h
    simp only [addPriorOrDuplicateVersionKext]
    split
    · apply linksOK_setDup
      · intro x hx
        cases hx
        rw [candidateOK_setDup]
        exact ht
      · apply linksOK_setDup
        · intro x hx; exact h n x (Or.inr hx)
        · exact h
    · split
      · apply linksOK_setPrior
        · intro x hx; cases hx; exact ht
        · exact h
      · next p hp =>
        split
        · apply linksOK_setPrior
          · intro x hx
            cases hx
            rw [candidateOK_setPrior]
            exact ht
          · apply linksOK_setPrior
            · intro x hx; cases hx; exact h n p (Or.inl hp)
            · exact h
        · exact ih _ _ _ ht h

end KXKextManager

namespace KXKextManager

/-! ### The builder invariant (C3) -/

/-- Invariant carried through the builder loop: every dictionary entry is
a processed kext passing the candidate test whose version dominates every
processed passing kext of the same identity; every processed passing
kext's identity is present in the dictionary; and every chain link points
at a kext passing the candidate test. -/
structure BuildInv (m : KextManager) (processed : List Nat) : Prop where
  dict_ok : ∀ id hd, dictGet m.candidateKexts id = some hd →
    hd ∈ processed ∧ candidateOK m hd = true ∧ kextBundleId m hd = id ∧
    ∀ j, j ∈ processed → kextBundleId m j = id → candidateOK m j = true →
      kextVersion m j ≤ kextVersion m hd
  dict_complete : ∀ j, j ∈ processed → candidateOK m j = true →
    (dictGet m.candidateKexts (kextBundleId m j)).isSome = true
  links_ok : LinksOK m

/-- Recording a kext that fails the candidate test (or lies outside the
arena) as processed preserves the builder invariant without touching the
state. -/
theorem buildInv_extend_ineligible (m : KextManager) (t : Nat) (processed : List Nat)
    (hinv : BuildInv m processed) (hOKt : candidateOK m t = false) :
    BuildInv m (processed ++ [t]) := by
  refine ⟨?_, ?_, hinv.links_ok⟩
  · intro id hd hget
    obtain ⟨h1, h2, h3, h4⟩ := hinv.dict_ok id hd hget
    refine ⟨List.mem_append_left _ h1, h2, h3, ?_⟩
    intro j hj hbid hok
    rcases List.mem_append.mp hj with hj2 | hj2
    · exact h4 j hj2 hbid hok
    · rw [List.mem_singleton.mp hj2] at hok
      rw [hOKt] at hok
      cases hok
  · intro j hj hok
    rcases List.mem_append.mp hj with hj2 | hj2
    · exact hinv.dict_complete j hj2 hok
    · rw [List.mem_singleton.mp hj2] at hok
      rw [hOKt] at hok
      cases hok

/-- Inserting the first candidate of an identity preserves the builder
invariant. -/
theorem buildInv_insert_fresh (m : KextManager) (t : Nat) (processed : List Nat)
    (k : Kext) (hinv : BuildInv m processed) (hkt : kextAt m t = some k)
    (helig : eligibleCandidate m.safeBoot k = true)
    (hget : dictGet m.candidateKexts k.bundleId = none) :
    BuildInv { m with candidateKexts := dictSet m.candidateKexts k.bundleId t }
      (processed ++ [t]) := by
  have hOKt : candidateOK m t = true := by unfold candidateOK; rw [hkt]; exact helig
  have hBid : kextBundleId m t = k.bundleId := by unfold kextBundleId; rw [hkt]; rfl
  refine ⟨?_, ?_, hinv.links_ok⟩
  · intro id hd hget2
    have hget3 : dictGet (dictSet m.candidateKexts k.bundleId t) id = some hd := hget2
    rw [dictGet_dictSet] at hget3
    by_cases hid : id = k.bundleId
    · subst hid
      rw [if_pos rfl] at hget3
      injection hget3 with hdt
      subst hdt
      refine ⟨List.mem_append_right _ (List.mem_singleton.mpr rfl), hOKt, hBid, ?_⟩
      intro j hj hbid hok
      have hbid2 : kextBundleId m j = k.bundleId := hbid
      have hok2 : candidateOK m j = true := hok
      rcases List.mem_append.mp hj with hj2 | hj2
      · exfalso
        have hc := hinv.dict_complete j hj2 hok2
        rw [hbid2, hget] at hc
        cases hc
      · rw [List.mem_singleton.mp hj2]
    · rw [if_neg hid] at hget3
      obtain ⟨h1, h2, h3, h4⟩ := hinv.dict_ok id hd hget3
      refine ⟨List.mem_append_left _ h1, h2, h3, ?_⟩
      intro j hj hbid hok
      have hbid2 : kextBundleId m j = id := hbid
      have hok2 : candidateOK m j = true := hok
      rcases List.mem_append.mp hj with hj2 | hj2
      · exact h4 j hj2 hbid2 hok2
      · exfalso
        rw [List.mem_singleton.mp hj2] at hbid2
        rw [hBid] at hbid2
        exact hid hbid2.symm
  · intro j hj hok
    have hok2 : candidateOK m j = true := hok
    have goal2 : (dictGet (dictSet m.candidateKexts k.bundleId t)
        (kextBundleId m j)).isSome = true := by
      rw [dictGet_dictSet]
      by_cases hjb : kextBundleId m j = k.bundleId
      · rw [if_pos hjb]; rfl
      · rw [if_neg hjb]
        rcases List.mem_append.mp hj with hj2 | hj2
        · exact hinv.dict_complete j hj2 hok2
        · exfalso
          rw [List.mem_singleton.mp hj2] at hjb
          exact hjb hBid
    exact goal2

/-- Inserting a strictly newer candidate as the new head preserves the
builder invariant. -/
theorem buildInv_insert_newhead (m : KextManager) (t : Nat) (processed : List Nat)
    (k : Kext) (a : Nat) (hinv : BuildInv m processed) (hkt : kextAt m t = some k)
    (helig : eligibleCandidate m.safeBoot k = true)
    (hget : dictGet m.candidateKexts k.bundleId = some a)
    (hlt : kextVersion m a < kextVersion m t) :
    BuildInv { setPrior m t (some a) with
        candidateKexts := dictSet m.candidateKexts k.bundleId t }
      (processed ++ [t]) := by
  have hOKt : candidateOK m t = true := by unfold candidateOK; rw [hkt]; exact helig
  have hBid : kextBundleId m t = k.bundleId := by unfold kextBundleId; rw [hkt]; rfl
  obtain ⟨haMem, haOK, haBid, haMax⟩ := hinv.dict_ok k.bundleId a hget
  refine ⟨?_, ?_, ?_⟩
  · intro id hd hget2
    have hget3 : dictGet (dictSet m.candidateKexts k.bundleId t) id = some hd := hget2
    rw [dictGet_dictSet] at hget3
    by_cases hid : id = k.bundleId
    · subst hid
      rw [if_pos rfl] at hget3
      injection hget3 with hdt
      subst hdt
      refine ⟨List.mem_append_right _ (List.mem_singleton.mpr rfl), ?_, ?_, ?_⟩
      · show candidateOK (setPrior m t (some a)) t = true
        rw [candidateOK_setPrior]; exact hOKt
      · show kextBundleId (setPrior m t (some a)) t = k.bundleId
        rw [kextBundleId_setPrior]; exact hBid
      · intro j hj hbid hok
        have hbid2 : kextBundleId (setPrior m t (some a)) j = k.bundleId := hbid
        have hok2 : candidateOK (setPrior m t (some a)) j = true := hok
        rw [kextBundleId_setPrior] at hbid2
        rw [candidateOK_setPrior] at hok2
        show kextVersion (setPrior m t (some a)) j ≤ kextVersion (setPrior m t (some a)) t
        rw [kextVersion_setPrior, kextVersion_setPrior]
        rcases List.mem_append.mp hj with hj2 | hj2
        · exact le_trans (haMax j hj2 hbid2 hok2) (le_of_lt hlt)
        · rw [List.mem_singleton.mp hj2]
    · rw [if_neg hid] at hget3
      obtain ⟨h1, h2, h3, h4⟩ := hinv.dict_ok id hd hget3
      refine ⟨List.mem_append_left _ h1, ?_, ?_, ?_⟩
      · show candidateOK (setPrior m t (some a)) hd = true
        rw [candidateOK_setPrior]; exact h2
      · show kextBundleId (setPrior m t (some a)) hd = id
        rw [kextBundleId_setPrior]; exact h3
      · intro j hj hbid hok
        have hbid2 : kextBundleId (setPrior m t (some a)) j = id := hbid
        have hok2 : candidateOK (setPrior m t (some a)) j = true := hok
        rw [kextBundleId_setPrior] at hbid2
        rw [candidateOK_setPrior] at hok2
        show kextVersion (setPrior m t (some a)) j ≤ kextVersion (setPrior m t (some a)) hd
        rw [kextVersion_setPrior, kextVersion_setPrior]
        rcases List.mem_append.mp hj with hj2 | hj2
        · exact h4 j hj2 hbid2 hok2
        · exfalso
          rw [List.mem_singleton.mp hj2] at hbid2
          rw [hBid] at hbid2
          exact hid hbid2.symm
  · intro j hj hok
    have hok1 : candidateOK (setPrior m t (some a)) j = true := hok
    rw [candidateOK_setPrior] at hok1
    have goal2 : (dictGet (dictSet m.candidateKexts k.bundleId t)
        (kextBundleId (setPrior m t (some a)) j)).isSome = true := by
      rw [kextBundleId_setPrior, dictGet_dictSet]
      by_cases hjb : kextBundleId m j = k.bundleId
      · rw [if_pos hjb]; rfl
      · rw [if_neg hjb]
        rcases List.mem_append.mp hj with hj2 | hj2
        · exact hinv.dict_complete j hj2 hok1
        · exfalso
          rw [List.mem_singleton.mp hj2] at hjb
          exact hjb hBid
    exact goal2
  · show LinksOK (setPrior m t (some a))
    apply linksOK_setPrior
    · intro x hx
      cases hx
      exact haOK
    · exact hinv.links_ok

/-- Attaching a not-newer candidate into the existing chain preserves the
builder invariant. -/
theorem buildInv_insert_attach (m : KextManager) (t : Nat) (processed : List Nat)
    (k : Kext) (a : Nat) (hinv : BuildInv m processed) (hkt : kextAt m t = some k)
    (helig : eligibleCandidate m.safeBoot k = true)
    (hget : dictGet m.candidateKexts k.bundleId = some a)
    (hge : ¬ kextVersion m a < kextVersion m t) :
    BuildInv (addPriorOrDuplicateVersionKext m (m.kexts.length + 1) a t)
      (processed ++ [t]) := by
  have hOKt : candidateOK m t = true := by unfold candidateOK; rw [hkt]; exact helig
  have hBid : kextBundleId m t = k.bundleId := by unfold kextBundleId; rw [hkt]; rfl
  have hge2 : kextVersion m t ≤ kextVersion m a := not_lt.mp hge
  have hdict := addPriorOrDup_candidateKexts (m.kexts.length + 1) a t m
  have hstab := fun j => addPriorOrDup_stable (m.kexts.length + 1) a t m j
  refine ⟨?_, ?_, addPriorOrDup_linksOK _ a t m hOKt hinv.links_ok⟩
  · intro id hd hget2
    have hget3 : dictGet m.candidateKexts id = some hd := by
      rw [← hdict]; exact hget2
    obtain ⟨h1, h2, h3, h4⟩ := hinv.dict_ok id hd hget3
    refine ⟨List.mem_append_left _ h1, ?_, ?_, ?_⟩
    · rw [(hstab hd).1]; exact h2
    · rw [(hstab hd).2.2]; exact h3
    · intro j hj hbid hok
      rw [(hstab j).2.2] at hbid
      rw [(hstab j).1] at hok
      rw [(hstab j).2.1, (hstab hd).2.1]
      rcases List.mem_append.mp hj with hj2 | hj2
      · exact h4 j hj2 hbid hok
      · have hjt := List.mem_singleton.mp hj2
        subst hjt
        have hid : id = k.bundleId := by rw [← hbid]; exact hBid
        subst hid
        have hda : hd = a := by
          rw [hget3] at hget
          exact Option.some.inj hget
        subst hda
        exact hge2
  · intro j hj hok
    rw [(hstab j).1] at hok
    have goal2 : (dictGet (addPriorOrDuplicateVersionKext m (m.kexts.length + 1) a t).candidateKexts
        (kextBundleId (addPriorOrDuplicateVersionKext m (m.kexts.length + 1) a t) j)).isSome
        = true := by
      rw [hdict, (hstab j).2.2]
      rcases List.mem_append.mp hj with hj2 | hj2
      · exact hinv.dict_complete j hj2 hok
      · have hjt := List.mem_singleton.mp hj2
        subst hjt
        rw [hBid, hget]
        rfl
    exact goal2

end KXKextManager

namespace KXKextManager

/-- One iteration of the builder loop preserves the builder invariant. -/
theorem insertCandidateKext_inv (m : KextManager) (t : Nat) (processed : List Nat)
    (hinv : BuildInv m processed) :
    BuildInv (insertCandidateKext m t) (processed ++ [t]) := by
  cases hkt : kextAt m t with
  | none =>
    have hstate : insertCandidateKext m t = m := by
      simp only [insertCandidateKext, hkt]
    rw [hstate]
    exact buildInv_extend_ineligible m t processed hinv
      (by unfold candidateOK; rw [hkt])
  | some k =>
    by_cases helig : eligibleCandidate m.safeBoot k = true
    · cases hget : dictGet m.candidateKexts k.bundleId with
      | none =>
        have hstate : insertCandidateKext m t
            = { m with candidateKexts := dictSet m.candidateKexts k.bundleId t } := by
          simp only [insertCandidateKext, hkt, hget]
          rw [if_neg (not_not_intro helig)]
        rw [hstate]
        exact buildInv_insert_fresh m t processed k hinv hkt helig hget
      | some a =>
        by_cases hlt : kextVersion m a < kextVersion m t
        · have hstate : insertCandidateKext m t
              = { setPrior m t (some a) with
                  candidateKexts := dictSet m.candidateKexts k.bundleId t } := by
            simp only [insertCandidateKext, hkt, hget]
            rw [if_neg (not_not_intro helig), if_pos hlt]
            rfl
          rw [hstate]
          exact buildInv_insert_newhead m t processed k a hinv hkt helig hget hlt
        · have hstate : insertCandidateKext m t
              = addPriorOrDuplicateVersionKext m (m.kexts.length + 1) a t := by
            simp only [insertCandidateKext, hkt, hget]
            rw [if_neg (not_not_intro helig), if_neg hlt]
          rw [hstate]
          exact buildInv_insert_attach m t processed k a hinv hkt helig hget hlt
    · have hOKt : candidateOK m t = false := by
        unfold candidateOK
        rw [hkt]
        cases hb : eligibleCandidate m.safeBoot k with
        | false => exact hb
        | true => exact absurd hb helig
      have hstate : insertCandidateKext m t = m := by
        simp only [insertCandidateKext, hkt]
        rw [if_pos helig]
      rw [hstate]
      exact buildInv_extend_ineligible m t processed hinv hOKt

/-- Folding the builder loop over any kext list preserves the builder
invariant, extending the processed list. -/
theorem buildFold_inv : ∀ (l : List Nat) (m : KextManager) (processed : List Nat),
    BuildInv m processed →
    BuildInv (l.foldl insertCandidateKext m) (processed ++ l) := by
  intro l
  induction l with
  | nil => intro m p h; simpa using h
  | cons t rest ih =>
    intro m p h
    have h3 := ih (insertCandidateKext m t) (p ++ [t]) (insertCandidateKext_inv m t p h)
    rw [List.foldl_cons]
    simpa [List.append_assoc] using h3

/-- The builder invariant holds after the unconditional teardown that
opens KXKextManagerCalculateVersionRelationships. -/
theorem buildInv_base (m : KextManager) :
    BuildInv (clearDependencyRelationships (structuralClearRelationships m)) [] := by
  have harena : (clearDependencyRelationships (structuralClearRelationships m)).kexts
      = m.kexts.map (fun k =>
          { k with priorVersionKext := none, duplicateVersionKext := none }) := rfl
  refine ⟨?_, ?_, ?_⟩
  · intro id hd hget
    exact Option.noConfusion hget
  · intro j hj _
    exact absurd hj (List.not_mem_nil j)
  · intro i j hij
    have hp : kextPrior (clearDependencyRelationships (structuralClearRelationships m)) i
        = none := by
      unfold kextPrior kextAt
      rw [harena, List.get?_map]
      cases m.kexts.get? i <;> rfl
    have hd : kextDup (clearDependencyRelationships (structuralClearRelationships m)) i
        = none := by
      unfold kextDup kextAt
      rw [harena, List.get?_map]
      cases m.kexts.get? i <;> rfl
    rcases hij with h | h
    · rw [hp] at h; cases h
    · rw [hd] at h; cases h

/-- C3: after KXKextManagerCalculateVersionRelationships, every Candidate
Set entry is a kext passing the four candidate tests (valid, not
loadFailed, safe-boot-eligible when safe boot is active, enabled), stores
its own identity, came from the repository traversal, and carries the
highest version among all traversed kexts of that identity passing the
tests; and a kext failing any test never becomes a Candidate Set entry
and is never the target of any priorVersion or duplicateVersion link. -/
theorem calculate_version_relationships_invariant (m : KextManager) :
    (∀ id hd,
      dictGet (calculateVersionRelationships m).candidateKexts id = some hd →
      candidateOK (calculateVersionRelationships m) hd = true ∧
      kextBundleId (calculateVersionRelationships m) hd = id ∧
      hd ∈ buildTraversal m ∧
      ∀ j, j ∈ buildTraversal m →
        kextBundleId (calculateVersionRelationships m) j = id →
        candidateOK (calculateVersionRelationships m) j = true →
        kextVersion (calculateVersionRelationships m) j
          ≤ kextVersion (calculateVersionRelationships m) hd) ∧
    (∀ j, candidateOK (calculateVersionRelationships m) j = false →
      (∀ id, ¬ dictGet (calculateVersionRelationships m).candidateKexts id = some j) ∧
      (∀ i, ¬ kextPrior (calculateVersionRelationships m) i = some j ∧
            ¬ kextDup (calculateVersionRelationships m) i = some j)) := by
  have hinv : BuildInv
      ((buildTraversal m).foldl insertCandidateKext
        (clearDependencyRelationships (structuralClearRelationships m)))
      (buildTraversal m) := by
    have h := buildFold_inv (buildTraversal m)
      (clearDependencyRelationships (structuralClearRelationships m)) [] (buildInv_base m)
    simpa using h
  constructor
  · intro id hd hget
    have hget2 : dictGet
        ((buildTraversal m).foldl insertCandidateKext
          (clearDependencyRelationships (structuralClearRelationships m))).candidateKexts
        id = some hd := hget
    obtain ⟨h1, h2, h3, h4⟩ := hinv.dict_ok id hd hget2
    exact ⟨h2, h3, h1, h4⟩
  · intro j hOK
    have hOK2 : candidateOK
        ((buildTraversal m).foldl insertCandidateKext
          (clearDependencyRelationships (structuralClearRelationships m))) j = false := hOK
    constructor
    · intro id hget
      have hget2 : dictGet
          ((buildTraversal m).foldl insertCandidateKext
            (clearDependencyRelationships (structuralClearRelationships m))).candidateKexts
          id = some j := hget
      have := (hinv.dict_ok id j hget2).2.1
      rw [hOK2] at this
      cases this
    · intro i
      constructor
      · intro hp
        have hp2 : kextPrior
            ((buildTraversal m).foldl insertCandidateKext
              (clearDependencyRelationships (structuralClearRelationships m))) i
            = some j := hp
        have := hinv.links_ok i j (Or.inl hp2)
        rw [hOK2] at this
        cases this
      · intro hdp
        have hd2 : kextDup
            ((buildTraversal m).foldl insertCandidateKext
              (clearDependencyRelationships (structuralClearRelationships m))) i
            = some j := hdp
        have := hinv.links_ok i j (Or.inr hd2)
        rw [hOK2] at this
        cases this

/-- Witness for C3 at a concrete one-repository manager. -/
theorem calculate_version_relationships_invariant_witness :
    dictGet (calculateVersionRelationships staleScenario).candidateKexts 3 = some 0 ∧
    candidateOK (calculateVersionRelationships staleScenario) 0 = true :=
  ⟨by decide,
    ((calculate_version_relationships_invariant staleScenario).1 3 0 (by decide)).1⟩

end KXKextManager

namespace KXKextManager

/-! ### Loaded-kext reconciliation (KXKextManagerCheckForLoadedKexts) -/

/-- One entry of the kernel's live module table as delivered by
kmod_get_info: the module name and its parsed version
(VERS_parse_string result; negative means the version string failed to
parse and the entry is skipped). -/
structure KmodEntry where
  name : Nat
  version : Int
  deriving DecidableEq, Repr

/-- Reset the loaded flags of every kext.  Modelled from the spec: the
repository collaborator call _KXKextRepositoryMarkKextsNotLoaded, invoked
for every repository, marks each repository's kexts not loaded; the
arena holds exactly the repositories' kexts. -/
def markAllKextsNotLoaded (m : KextManager) : KextManager :=
  { m with kexts := m.kexts.map (fun k =>
      { k with isLoaded := false, otherVersionIsLoaded := false }) }

/-- Record that a kext is loaded (_KXKextSetIsLoaded). -/
def setIsLoaded (m : KextManager) (i : Nat) : KextManager :=
  updateKext m i (fun k => { k with isLoaded := true })

/-- Record that another version of a kext is loaded
(_KXKextSetOtherVersionIsLoaded). -/
def setOtherVersionIsLoaded (m : KextManager) (i : Nat) : KextManager :=
  updateKext m i (fun k => { k with otherVersionIsLoaded := true })

/-- The inner marking loop of KXKextManagerCheckForLoadedKexts: walk a
duplicate chain, marking each member loaded when its version equals the
kernel module's and other-version-loaded otherwise.  (The start-address
bookkeeping of the source is not modelled.) -/
def markDupWalk (m : KextManager) (fuel : Nat) (d : Option Nat) (vers : Int) :
    KextManager :=
  match fuel, d with
  | 0, _ => m
  | _ + 1, none => m
  | fuel + 1, some d0 =>
    let m := if kextVersion m d0 = vers then setIsLoaded m d0
             else setOtherVersionIsLoaded m d0
    markDupWalk m fuel (kextDup m d0) vers

/-- The outer marking loop of KXKextManagerCheckForLoadedKexts: walk the
priorVersion chain, marking each node and its duplicate chain. -/
def markPriorWalk (m : KextManager) (fuel : Nat) (t : Option Nat) (vers : Int) :
    KextManager :=
  match fuel, t with
  | 0, _ => m
  | _ + 1, none => m
  | fuel + 1, some t0 =>
    let m := markDupWalk m (fuel + 1) (some t0) vers
    markPriorWalk m fuel (kextPrior m t0) vers

/-- KXKextManagerCheckForLoadedKexts: mark every repository's kexts not
loaded, then fold the kernel's module table (none models a failed
kmod_get_info query, a hard error), skipping unparseable versions and
marking the identifier's whole chain by version comparison.  The model's
table is the content of the linked kmod list, so the source's
end-of-list break is implicit; allocation failures are not modelled. -/
def checkForLoadedKexts (m : KextManager) (table : Option (List KmodEntry)) :
    KMError × KextManager :=
  let m := markAllKextsNotLoaded m
  match table with
  | none => (KMError.unspecified, m)
  | some entries =>
    (KMError.noError,
      entries.foldl (fun acc e =>
        if e.version < 0 then acc
        else
          let pair := getKextWithIdentifier acc e.name
          markPriorWalk pair.snd (pair.snd.kexts.length + 1) pair.fst e.version) m)

/-- The duplicate-chain traversal order of the marking loop (ghost
companion of markDupWalk). -/
def dupVisit (m : KextManager) : Nat → Option Nat → List Nat
  | 0, _ => []
  | _ + 1, none => []
  | fuel + 1, some d0 => d0 :: dupVisit m fuel (kextDup m d0)

/-- The full traversal order of the marking loop (ghost companion of
markPriorWalk). -/
def markVisit (m : KextManager) : Nat → Option Nat → List Nat
  | 0, _ => []
  | _ + 1, none => []
  | fuel + 1, some t0 =>
    dupVisit m (fuel + 1) (some t0) ++ markVisit m fuel (kextPrior m t0)

/-! ### Compatible-version lookup -/

/-- The scan loop of
__KXKextManagerGetKextWithIdentifierCompatibleWithVersionNumber: walk the
priorVersion chain; a compatible loaded kext returns immediately, the
first compatible kext otherwise is remembered.  The compatibility test
(_KXKextIsCompatibleWithVersionNumber, in KXKext.c) is abstracted as the
compat parameter, matching the spec's Module interface. -/
def compatScanLoop (compat : Nat → Int → Bool) (m : KextManager) :
    Nat → Option Nat → Int → Option Nat → Option Nat
  | 0, _, _, found => found
  | _ + 1, none, _, found => found
  | fuel + 1, some s, v, found =>
    if compat s v then
      if kextFlag m s (fun k => k.isLoaded) then some s
      else
        compatScanLoop compat m fuel (kextPrior m s) v
          (if found.isSome then found else some s)
    else compatScanLoop compat m fuel (kextPrior m s) v found

/-- __KXKextManagerGetKextWithIdentifierCompatibleWithVersionNumber:
refresh the relationship structure, then scan the identifier's chain;
without a version number the head itself is returned. -/
def getKextWithIdentifierCompatibleWithVersionNumber (compat : Nat → Int → Bool)
    (m : KextManager) (ident : Nat) (vers : Option Int) : Option Nat × KextManager :=
  let m := refreshRelationships m
  let scanKext := dictGet m.candidateKexts ident
  match vers with
  | none => (scanKext, m)
  | some v => (compatScanLoop compat m (m.kexts.length + 1) scanKext v none, m)

/-- KXKextManagerGetKextWithIdentifierCompatibleWithVersionString: a null
version string (none) forwards a null version pointer; a version string
that fails __versionNumberForString (some none) returns NULL without
consulting the chains; a parsed version (some (some v)) forwards it. -/
def getKextWithIdentifierCompatibleWithVersionString (compat : Nat → Int → Bool)
    (m : KextManager) (ident : Nat) (versionString : Option (Option Int)) :
    Option Nat × KextManager :=
  match versionString with
  | some none => (none, m)
  | some (some v) => getKextWithIdentifierCompatibleWithVersionNumber compat m ident (some v)
  | none => getKextWithIdentifierCompatibleWithVersionNumber compat m ident none

/-- List the priorVersion chain from an optional start handle. -/
def chainFrom (m : KextManager) (fuel : Nat) : Option Nat → List Nat
  | none => []
  | some t => priorChain m fuel t

/-- The chain scanned by the compatible-version lookup for an identity:
the refreshed manager's chain for that identity. -/
def compatChain (m : KextManager) (ident : Nat) : List Nat :=
  chainFrom (refreshRelationships m) ((refreshRelationships m).kexts.length + 1)
    (dictGet (refreshRelationships m).candidateKexts ident)

/-! ### Load preparation (_KXKextManagerPrepareKextForLoading) -/

/-- The outcome of the external KXKextAuthenticate for a handle. -/
def authResultOf (m : KextManager) (j : Nat) : KMError :=
  ((kextAt m j).map (fun k => k.authenticateResult)).getD KMError.noError

/-- The outcome of the external KXKextResolveDependencies for a handle. -/
def resolveResultOf (m : KextManager) (j : Nat) : KMError :=
  ((kextAt m j).map (fun k => k.resolveDependenciesResult)).getD KMError.noError

/-- The disqualifying test of the authentication walk: the kext is not
already authentic and its authentication outcome is the authentication
failure kind. -/
def authFails (m : KextManager) (j : Nat) : Bool :=
  !kextFlag m j (fun k => k.isAuthentic)
    && decide (authResultOf m j = KMError.authentication)

/-- The bad-kext list of a repository by index. -/
def badKextsOf (m : KextManager) (rIdx : Nat) : List Nat :=
  ((m.repositoryList.get? rIdx).map (fun r => r.badKexts)).getD []

/-- The repository index recorded for a handle. -/
def repositoryIndexOf (m : KextManager) (j : Nat) : Nat :=
  ((kextAt m j).map (fun k => k.repositoryIndex)).getD 0

/-- Modelled from the spec: _KXKextRepositoryDisqualifyKext lives in
KXKextRepository.c, outside this translation unit.  Per the spec, a
disqualified module is moved to its repository's bad-module set, leaving
the Candidate Set; and per the spec's reentrancy design the structural
change requests a relationship clear, which the invalidation controller
defers while the disable depth is raised. -/
def disqualifyKext (m : KextManager) (t : Nat) : KextManager :=
  let rIdx := repositoryIndexOf m t
  let m := { m with repositoryList := listModifyAt m.repositoryList rIdx (fun r =>
      { candidateKexts := r.candidateKexts.filter (fun x => ¬ x = t),
        badKexts := r.badKexts ++ [t] }) }
  clearRelationshipsOp m

/-- State threaded through the authentication walk of
_KXKextManagerPrepareKextForLoading: the manager, the accumulated result
code, the caller's optional container for tolerated inauthentic kexts,
and a ghost log of visited kexts. -/
structure AuthWalkState where
  m : KextManager
  result : KMError
  inauthentic : Option (List Nat)
  visited : List Nat

/-- The authentication walk over the dependency closure (the loop of
_KXKextManagerPrepareKextForLoading): per kext, a loaded different
version raises the dependency-version-conflict outcome (stopping the
walk unless full tests are on); a kext not yet authentic is
authenticated, an authentication failure being either collected into the
caller's container (walk continues) or disqualifying the kext (stopping
the walk unless full tests are on). -/
def authWalk : List Nat → AuthWalkState → AuthWalkState
  | [], s => s
  | t :: rest, s =>
    let s := { s with visited := s.visited ++ [t] }
    let conflict := kextFlag s.m t (fun k => k.otherVersionIsLoaded)
    let s :=
      if conflict then
        { s with result :=
            if s.result = KMError.noError ∨
               s.result = KMError.dependencyLoadedVersionDiffers
            then KMError.dependencyLoadedVersionDiffers
            else KMError.unspecified }
      else s
    if conflict = true ∧ s.m.performsFullTests = false then s
    else
      if kextFlag s.m t (fun k => k.isAuthentic) = false then
        let ar := authResultOf s.m t
        let s :=
          if ar ≠ KMError.noError then
            { s with result :=
                if s.result = KMError.noError ∨ s.result = ar then ar
                else KMError.unspecified }
          else s
        if ar = KMError.authentication then
          match s.inauthentic with
          | some lst => authWalk rest { s with inauthentic := some (lst ++ [t]) }
          | none =>
            let s2 := { s with m := disqualifyKext s.m t }
            if s2.m.performsFullTests = false then s2
            else authWalk rest s2
        else authWalk rest s
      else authWalk rest s

/-- The refresh preamble of _KXKextManagerPrepareKextForLoading: a
pending clear runs the structural teardown and the dependency teardown,
then stale version relationships are rebuilt. -/
def prepareRefresh (m : KextManager) : KextManager :=
  let m := if m.needsClearRelationships
    then clearDependencyRelationships (structuralClearRelationships m) else m
  if m.needsCalculateRelationships then calculateVersionRelationships m else m

/-- Steps 3 and 4 of _KXKextManagerPrepareKextForLoading: blow away all
dependency relationships and resolve the target's dependencies
just-in-time (a failure records the target as missing dependencies
without disqualifying it), then authenticate the whole closure under a
raised disable depth, lowering it at the end (which runs any deferred
clear). -/
def prepareResolveAndAuth (m : KextManager) (t : Nat)
    (inauthenticKexts : Option (List Nat)) :
    KMError × KextManager × Option (List Nat) :=
  let m := clearDependencyRelationships m
  let m := logResolve m t
  let res := resolveResultOf m t
  if res ≠ KMError.noError then
    (res, addMissing m t, inauthenticKexts)
  else
    let m := disableClearRelationshipsOp m
    let kextList := (((kextAt m t).map (fun k => k.allDependencies)).getD []) ++ [t]
    let s := authWalk kextList
      { m := m, result := KMError.noError,
        inauthentic := inauthenticKexts, visited := [] }
    (s.result, enableClearRelationshipsOp s.m, s.inauthentic)

/-- _KXKextManagerPrepareKextForLoading: the eligibility gates (validity,
safe boot, enablement), the relationship refresh, the liveness
reconciliation against the kernel's module table with the already-loaded
and different-version-loaded rejections, then just-in-time dependency
resolution and closure authentication. -/
def prepareKextForLoading (m : KextManager) (t : Nat) (check_loaded do_load : Bool)
    (table : Option (List KmodEntry)) (inauthenticKexts : Option (List Nat)) :
    KMError × KextManager × Option (List Nat) :=
  if kextFlag m t (fun k => k.isValid) = false then
    (KMError.validation, m, inauthenticKexts)
  else if m.safeBoot = true ∧ kextFlag m t (fun k => k.eligibleDuringSafeBoot) = false then
    (KMError.bootLevel, m, inauthenticKexts)
  else if kextFlag m t (fun k => k.isEnabled) = false then
    (KMError.disabledError, m, inauthenticKexts)
  else
    let m1 := prepareRefresh m
    if check_loaded = true then
      let res := checkForLoadedKexts m1 table
      if res.fst = KMError.noError then
        if do_load = true ∧ kextFlag res.snd t (fun k => k.isLoaded) = true then
          (KMError.alreadyLoaded, res.snd, inauthenticKexts)
        else if do_load = true ∧
            kextFlag res.snd t (fun k => k.otherVersionIsLoaded) = true then
          (KMError.loadedVersionDiffers, res.snd, inauthenticKexts)
        else prepareResolveAndAuth res.snd t inauthenticKexts
      else (res.fst, res.snd, inauthenticKexts)
    else prepareResolveAndAuth m1 t inauthenticKexts

/-! ### Load execution (_KXKextManagerLoadKextUsingOptions) -/

/-- The tail of _KXKextManagerLoadKextUsingOptions.  The dependency-graph
construction, the optional child-task isolation (fork, waitpid, with
signal or stop termination mapped to the child-task error) and the
kload link/load execution are external; their combined outcome reaches
the finish block as execResult.  Every result other than success and
other than already-loaded flags the target loadFailed and clears the
relationship structure. -/
def loadKextExecutionFinish (m : KextManager) (t : Nat) (execResult : KMError) :
    KMError × KextManager :=
  if execResult ≠ KMError.noError ∧ execResult ≠ KMError.alreadyLoaded then
    (execResult,
      clearRelationshipsOp (updateKext m t (fun k => { k with loadFailed := true })))
  else (execResult, m)

/-- KXKextManagerLoadKextUsingOptions: prepare, then delegate execution
(with its failure bookkeeping); a preparation failure returns without
executing. -/
def loadKextUsingOptions (m : KextManager) (t : Nat) (check_loaded do_load : Bool)
    (table : Option (List KmodEntry)) (execResult : KMError) : KMError × KextManager :=
  let p := prepareKextForLoading m t check_loaded do_load table none
  if p.fst ≠ KMError.noError then (p.fst, p.snd.fst)
  else loadKextExecutionFinish p.snd.fst t execResult

end KXKextManager

namespace KXKextManager

/-- C7: whenever the load-execution step returns anything other than
success or already-loaded, the finish block flags the target kext
loadFailed and invalidates the chain structure: the relationships are
marked stale, and the clear either empties the Candidate Set and the
Missing-Dependency List at once (disable depth zero) or is deferred as a
pending clear request. -/
theorem load_failure_marks_and_invalidates (m : KextManager) (t : Nat)
    (execResult : KMError) (ht : t < m.kexts.length)
    (hr1 : execResult ≠ KMError.noError) (hr2 : execResult ≠ KMError.alreadyLoaded) :
    (loadKextExecutionFinish m t execResult).fst = execResult ∧
    kextFlag (loadKextExecutionFinish m t execResult).snd t (fun k => k.loadFailed)
      = true ∧
    (loadKextExecutionFinish m t execResult).snd.needsCalculateRelationships = true ∧
    (m.clearRelationshipsDisableCount = 0 →
      (loadKextExecutionFinish m t execResult).snd.candidateKexts = [] ∧
      (loadKextExecutionFinish m t execResult).snd.kextsWithMissingDependencies = []) ∧
    (m.clearRelationshipsDisableCount > 0 →
      (loadKextExecutionFinish m t execResult).snd.needsClearRelationships = true) := by
  obtain ⟨k, hk⟩ : ∃ k, m.kexts.get? t = some k := by
    cases hg : m.kexts.get? t with
    | some k => exact ⟨k, rfl⟩
    | none =>
      rw [List.get?_eq_none] at hg
      omega
  have h1 : kextAt (updateKext m t (fun k => { k with loadFailed := true })) t
      = (kextAt m t).map (fun k => { k with loadFailed := true }) := by
    rw [kextAt_updateKext, if_pos rfl]
  unfold loadKextExecutionFinish
  rw [if_pos ⟨hr1, hr2⟩]
  by_cases hd : m.clearRelationshipsDisableCount > 0
  · have hop : clearRelationshipsOp
        (updateKext m t (fun k => { k with loadFailed := true }))
        = { updateKext m t (fun k => { k with loadFailed := true }) with
            needsClearRelationships := true, needsCalculateRelationships := true } := by
      have hcnt : (updateKext m t
          (fun k => { k with loadFailed := true })).clearRelationshipsDisableCount > 0 := hd
      unfold clearRelationshipsOp
      rw [if_pos hcnt]
    rw [hop]
    refine ⟨rfl, ?_, rfl, ?_, fun _ => rfl⟩
    · show ((kextAt (updateKext m t (fun k => { k with loadFailed := true })) t).map
          (fun k => k.loadFailed)).getD false = true
      rw [h1, show kextAt m t = some k from hk]
      rfl
    · intro h0
      omega
  · have hop : clearRelationshipsOp
        (updateKext m t (fun k => { k with loadFailed := true }))
        = structuralClearRelationships
            (updateKext m t (fun k => { k with loadFailed := true })) := by
      have hcnt : ¬ (updateKext m t
          (fun k => { k with loadFailed := true })).clearRelationshipsDisableCount > 0 := hd
      unfold clearRelationshipsOp
      rw [if_neg hcnt]
    rw [hop]
    refine ⟨rfl, ?_, rfl, fun _ => ⟨rfl, rfl⟩, ?_⟩
    · have h1g : (listModifyAt m.kexts t (fun k => { k with loadFailed := true })).get? t
          = (m.kexts.get? t).map (fun k => { k with loadFailed := true }) := h1
      have hk2 : kextAt (structuralClearRelationships
          (updateKext m t (fun k => { k with loadFailed := true }))) t
          = ((m.kexts.get? t).map (fun k => { k with loadFailed := true })).map
              (fun k => { k with priorVersionKext := none, duplicateVersionKext := none }) := by
        unfold kextAt
        rw [show (structuralClearRelationships (updateKext m t
            (fun k => { k with loadFailed := true }))).kexts
          = (listModifyAt m.kexts t (fun k => { k with loadFailed := true })).map
              (fun k => { k with priorVersionKext := none, duplicateVersionKext := none })
          from rfl]
        rw [List.get?_map, h1g]
      show ((kextAt (structuralClearRelationships
          (updateKext m t (fun k => { k with loadFailed := true }))) t).map
          (fun k => k.loadFailed)).getD false = true
      rw [hk2, hk]
      rfl
    · intro hpos
      exact absurd hpos hd

/-- Witness for C7 at a concrete one-kext manager. -/
theorem load_failure_marks_and_invalidates_witness :
    0 < staleScenario.kexts.length ∧
    KMError.unspecified ≠ KMError.noError ∧
    KMError.unspecified ≠ KMError.alreadyLoaded ∧
    kextFlag (loadKextExecutionFinish staleScenario 0 KMError.unspecified).snd 0
      (fun k => k.loadFailed) = true :=
  ⟨by decide, by decide, by decide,
    (load_failure_marks_and_invalidates staleScenario 0 KMError.unspecified
      (by decide) (by decide) (by decide)).2.1⟩

end KXKextManager

namespace KXKextManager

/-- C6: under doLoad and checkLoadedForDependencies, a target found
already loaded by the liveness reconciliation is rejected with the
already-loaded error, and a target with a different version loaded is
rejected with the distinct loaded-version-differs error — in both cases
the request returns the state as the reconciliation left it, so the
dependency-resolution step (which would clear the dependency
relationships, append to the ghost resolution log, and possibly record a
missing dependency) is never attempted. -/
theorem already_loaded_rejected_before_resolution (m : KextManager) (t : Nat)
    (table : Option (List KmodEntry)) (inauth : Option (List Nat))
    (hvalid : kextFlag m t (fun k => k.isValid) = true)
    (hsafe : m.safeBoot = true → kextFlag m t (fun k => k.eligibleDuringSafeBoot) = true)
    (henabled : kextFlag m t (fun k => k.isEnabled) = true)
    (hcheck : (checkForLoadedKexts (prepareRefresh m) table).fst = KMError.noError) :
    (kextFlag (checkForLoadedKexts (prepareRefresh m) table).snd t
        (fun k => k.isLoaded) = true →
      prepareKextForLoading m t true true table inauth
        = (KMError.alreadyLoaded,
            (checkForLoadedKexts (prepareRefresh m) table).snd, inauth)) ∧
    (kextFlag (checkForLoadedKexts (prepareRefresh m) table).snd t
        (fun k => k.isLoaded) = false →
      kextFlag (checkForLoadedKexts (prepareRefresh m) table).snd t
        (fun k => k.otherVersionIsLoaded) = true →
      prepareKextForLoading m t true true table inauth
        = (KMError.loadedVersionDiffers,
            (checkForLoadedKexts (prepareRefresh m) table).snd, inauth)) ∧
    KMError.alreadyLoaded ≠ KMError.loadedVersionDiffers := by
  have hboot : ¬ (m.safeBoot = true ∧
      kextFlag m t (fun k => k.eligibleDuringSafeBoot) = false) := by
    rintro ⟨hs, he⟩
    rw [hsafe hs] at he
    cases he
  have hred : prepareKextForLoading m t true true table inauth
      = (if True ∧ kextFlag (checkForLoadedKexts (prepareRefresh m) table).snd t
            (fun k => k.isLoaded) = true then
          (KMError.alreadyLoaded,
            (checkForLoadedKexts (prepareRefresh m) table).snd, inauth)
        else if True ∧
            kextFlag (checkForLoadedKexts (prepareRefresh m) table).snd t
              (fun k => k.otherVersionIsLoaded) = true then
          (KMError.loadedVersionDiffers,
            (checkForLoadedKexts (prepareRefresh m) table).snd, inauth)
        else prepareResolveAndAuth
          (checkForLoadedKexts (prepareRefresh m) table).snd t inauth) := by
    simp only [prepareKextForLoading]
    rw [if_neg (by simp [hvalid]), if_neg hboot, if_neg (by simp [henabled]),
      if_pos trivial, if_pos hcheck]
  refine ⟨?_, ?_, by decide⟩
  · intro hl
    rw [hred, if_pos ⟨trivial, hl⟩]
  · intro hnl ho
    have hno : ¬ (True ∧
        kextFlag (checkForLoadedKexts (prepareRefresh m) table).snd t
          (fun k => k.isLoaded) = true) := by
      rintro ⟨-, hx⟩
      rw [hnl] at hx
      cases hx
    rw [hred, if_neg hno, if_pos ⟨trivial, ho⟩]

/-- Witness for C6: a loaded kext rejected with the already-loaded
error. -/
theorem already_loaded_rejected_witness :
    kextFlag staleScenario 0 (fun k => k.isValid) = true ∧
    (checkForLoadedKexts (prepareRefresh staleScenario)
      (some [{ name := 3, version := 1 }])).fst = KMError.noError ∧
    kextFlag (checkForLoadedKexts (prepareRefresh staleScenario)
      (some [{ name := 3, version := 1 }])).snd 0 (fun k => k.isLoaded) = true ∧
    prepareKextForLoading staleScenario 0 true true
        (some [{ name := 3, version := 1 }]) none
      = (KMError.alreadyLoaded,
          (checkForLoadedKexts (prepareRefresh staleScenario)
            (some [{ name := 3, version := 1 }])).snd, none) :=
  ⟨by decide, by decide, by decide,
    (already_loaded_rejected_before_resolution staleScenario 0
      (some [{ name := 3, version := 1 }]) none
      (by decide) (by decide) (by decide) (by decide)).1 (by decide)⟩

end KXKextManager

namespace KXKextManager

/-- The clear request never changes the full-tests setting. -/
theorem clearOp_fullTests (mm : KextManager) :
    (clearRelationshipsOp mm).performsFullTests = mm.performsFullTests := by
  unfold clearRelationshipsOp
  split
  · rfl
  · rfl

/-- Disqualification never changes the full-tests setting. -/
theorem disqualify_fullTests (mm : KextManager) (x : Nat) :
    (disqualifyKext mm x).performsFullTests = mm.performsFullTests := by
  show (clearRelationshipsOp _).performsFullTests = mm.performsFullTests
  rw [clearOp_fullTests]

/-- The clear request never changes the repository list. -/
theorem clearOp_repositoryList (mm : KextManager) :
    (clearRelationshipsOp mm).repositoryList = mm.repositoryList := by
  unfold clearRelationshipsOp
  split
  · rfl
  · rfl

/-- Disqualification puts the kext into its repository's bad set. -/
theorem disqualify_mem_bad (mm : KextManager) (x : Nat)
    (h : repositoryIndexOf mm x < mm.repositoryList.length) :
    x ∈ badKextsOf (disqualifyKext mm x) (repositoryIndexOf mm x) := by
  obtain ⟨r, hr⟩ : ∃ r, mm.repositoryList.get? (repositoryIndexOf mm x) = some r := by
    cases hg : mm.repositoryList.get? (repositoryIndexOf mm x) with
    | some r => exact ⟨r, rfl⟩
    | none =>
      rw [List.get?_eq_none] at hg
      omega
  show x ∈ badKextsOf (clearRelationshipsOp _) (repositoryIndexOf mm x)
  unfold badKextsOf
  rw [clearOp_repositoryList]
  show x ∈ ((((listModifyAt mm.repositoryList (repositoryIndexOf mm x)
      (fun r => { candidateKexts := r.candidateKexts.filter (fun y => ¬ y = x),
                  badKexts := r.badKexts ++ [x] })).get?
      (repositoryIndexOf mm x)).map (fun r => r.badKexts)).getD [])
  rw [listModifyAt_get, if_pos rfl, hr]
  show x ∈ r.badKexts ++ [x]
  exact List.mem_append_right _ (List.mem_singleton.mpr rfl)

/-- Container mode: with a caller-supplied container and no loaded
version conflicts, the authentication walk visits the whole closure,
never mutates the manager, and collects exactly the kexts whose
authentication fails. -/
theorem authWalk_collects : ∀ (L : List Nat) (s : AuthWalkState) (lst : List Nat),
    s.inauthentic = some lst →
    (∀ j, j ∈ L → kextFlag s.m j (fun k => k.otherVersionIsLoaded) = false) →
    (authWalk L s).m = s.m ∧
    (authWalk L s).visited = s.visited ++ L ∧
    (authWalk L s).inauthentic = some (lst ++ L.filter (authFails s.m)) := by
  intro L
  induction L with
  | nil =>
    intro s lst hin _
    simpa [authWalk] using hin
  | cons t rest ih =>
    intro s lst hin hconf
    have hct : kextFlag s.m t (fun k => k.otherVersionIsLoaded) = false :=
      hconf t (List.mem_cons_self t rest)
    have hconf2 : ∀ j, j ∈ rest →
        kextFlag s.m j (fun k => k.otherVersionIsLoaded) = false :=
      fun j hj => hconf j (List.mem_cons_of_mem t hj)
    by_cases hauth : kextFlag s.m t (fun k => k.isAuthentic) = false
    · by_cases har : authResultOf s.m t = KMError.authentication
      · have hfail : authFails s.m t = true := by
          unfold authFails
          rw [hauth, har]
          rfl
        have hstep : authWalk (t :: rest) s
            = authWalk rest
                { m := s.m,
                  result := if s.result = KMError.noError ∨
                      s.result = KMError.authentication
                    then KMError.authentication else KMError.unspecified,
                  inauthentic := some (lst ++ [t]),
                  visited := s.visited ++ [t] } := by
          simp [authWalk, hct, hauth, har, hin]
        rw [hstep]
        obtain ⟨hm, hv, hi⟩ := ih
          { m := s.m,
            result := if s.result = KMError.noError ∨
                s.result = KMError.authentication
              then KMError.authentication else KMError.unspecified,
            inauthentic := some (lst ++ [t]),
            visited := s.visited ++ [t] } (lst ++ [t]) rfl
          (fun j hj => hconf2 j hj)
        refine ⟨hm, ?_, ?_⟩
        · rw [hv]
          simp
        · rw [List.filter_cons_of_pos hfail, hi]
          simp
      · have hfail : authFails s.m t = false := by
          unfold authFails
          simp [har]
        by_cases har0 : authResultOf s.m t = KMError.noError
        · have hstep : authWalk (t :: rest) s
              = authWalk rest
                  { m := s.m, result := s.result,
                    inauthentic := s.inauthentic, visited := s.visited ++ [t] } := by
            simp [authWalk, hct, hauth, har, har0]
          rw [hstep]
          obtain ⟨hm, hv, hi⟩ := ih
            { m := s.m, result := s.result,
              inauthentic := s.inauthentic, visited := s.visited ++ [t] } lst hin
            (fun j hj => hconf2 j hj)
          refine ⟨hm, ?_, ?_⟩
          · rw [hv]
            simp
          · rw [List.filter_cons_of_neg (by rw [hfail]; exact Bool.false_ne_true), hi]
        · have hstep : authWalk (t :: rest) s
              = authWalk rest
                  { m := s.m,
                    result := if s.result = KMError.noError ∨
                        s.result = authResultOf s.m t
                      then authResultOf s.m t else KMError.unspecified,
                    inauthentic := s.inauthentic, visited := s.visited ++ [t] } := by
            simp [authWalk, hct, hauth, har, har0]
          rw [hstep]
          obtain ⟨hm, hv, hi⟩ := ih
            { m := s.m,
              result := if s.result = KMError.noError ∨
                  s.result = authResultOf s.m t
                then authResultOf s.m t else KMError.unspecified,
              inauthentic := s.inauthentic, visited := s.visited ++ [t] } lst hin
            (fun j hj => hconf2 j hj)
          refine ⟨hm, ?_, ?_⟩
          · rw [hv]
            simp
          · rw [List.filter_cons_of_neg (by rw [hfail]; exact Bool.false_ne_true), hi]
    · have hauthT : kextFlag s.m t (fun k => k.isAuthentic) = true := by
        cases hb : kextFlag s.m t (fun k => k.isAuthentic) with
        | false => exact absurd hb hauth
        | true => rfl
      have hfail : authFails s.m t = false := by
        unfold authFails
        rw [hauthT]
        rfl
      have hstep : authWalk (t :: rest) s
          = authWalk rest
              { m := s.m, result := s.result,
                inauthentic := s.inauthentic, visited := s.visited ++ [t] } := by
        simp [authWalk, hct, hauthT]
      rw [hstep]
      obtain ⟨hm, hv, hi⟩ := ih
        { m := s.m, result := s.result,
          inauthentic := s.inauthentic, visited := s.visited ++ [t] } lst hin
        (fun j hj => hconf2 j hj)
      refine ⟨hm, ?_, ?_⟩
      · rw [hv]
        simp
      · rw [List.filter_cons_of_neg (by rw [hfail]; exact Bool.false_ne_true), hi]

end KXKextManager

namespace KXKextManager

/-- No-container mode: without a container and without full tests, the
walk stops at the first kext whose authentication fails, having
disqualified exactly that kext. -/
theorem authWalk_disqualifies : ∀ (L1 : List Nat) (x : Nat) (L2 : List Nat)
    (s : AuthWalkState),
    s.inauthentic = none →
    s.m.performsFullTests = false →
    s.result = KMError.noError →
    (∀ j, j ∈ L1 ++ x :: L2 → kextFlag s.m j (fun k => k.otherVersionIsLoaded) = false) →
    (∀ j, j ∈ L1 → kextFlag s.m j (fun k => k.isAuthentic) = true ∨
        authResultOf s.m j = KMError.noError) →
    authFails s.m x = true →
    (authWalk (L1 ++ x :: L2) s).visited = s.visited ++ L1 ++ [x] ∧
    (authWalk (L1 ++ x :: L2) s).result = KMError.authentication ∧
    (authWalk (L1 ++ x :: L2) s).m = disqualifyKext s.m x := by
  intro L1
  induction L1 with
  | nil =>
    intro x L2 s hnone hft hres hconf _ hfailx
    have hcx : kextFlag s.m x (fun k => k.otherVersionIsLoaded) = false :=
      hconf x (List.mem_append_right _ (List.mem_cons_self x L2))
    have hfx := hfailx
    unfold authFails at hfx
    rw [Bool.and_eq_true] at hfx
    have hauth : kextFlag s.m x (fun k => k.isAuthentic) = false := by
      have := hfx.1
      cases hb : kextFlag s.m x (fun k => k.isAuthentic) with
      | false => rfl
      | true => rw [hb] at this; cases this
    have har : authResultOf s.m x = KMError.authentication :=
      of_decide_eq_true hfx.2
    have hstep : authWalk ([] ++ x :: L2) s
        = { m := disqualifyKext s.m x, result := KMError.authentication,
            inauthentic := none, visited := s.visited ++ [x] } := by
      simp [authWalk, hcx, hauth, har, hnone, hres, disqualify_fullTests, hft]
    rw [hstep]
    exact ⟨by simp, rfl, rfl⟩
  | cons a L1t ih =>
    intro x L2 s hnone hft hres hconf hclean hfailx
    have hca : kextFlag s.m a (fun k => k.otherVersionIsLoaded) = false :=
      hconf a (List.mem_append_left _ (List.mem_cons_self a L1t))
    have hconft : ∀ j, j ∈ L1t ++ x :: L2 →
        kextFlag s.m j (fun k => k.otherVersionIsLoaded) = false := by
      intro j hj
      apply hconf
      rcases List.mem_append.mp hj with hj2 | hj2
      · exact List.mem_append_left _ (List.mem_cons_of_mem a hj2)
      · exact List.mem_append_right _ hj2
    have hcleant : ∀ j, j ∈ L1t → kextFlag s.m j (fun k => k.isAuthentic) = true ∨
        authResultOf s.m j = KMError.noError :=
      fun j hj => hclean j (List.mem_cons_of_mem a hj)
    cases hb : kextFlag s.m a (fun k => k.isAuthentic) with
    | true =>
      have hstep : authWalk ((a :: L1t) ++ x :: L2) s
          = authWalk (L1t ++ x :: L2)
              { m := s.m, result := s.result,
                inauthentic := s.inauthentic, visited := s.visited ++ [a] } := by
        simp [authWalk, List.cons_append, hca, hb]
      rw [hstep]
      obtain ⟨hv, hr, hm⟩ := ih x L2
        { m := s.m, result := s.result,
          inauthentic := s.inauthentic, visited := s.visited ++ [a] }
        hnone hft hres hconft hcleant hfailx
      refine ⟨?_, hr, hm⟩
      rw [hv]
      simp
    | false =>
      have har0 : authResultOf s.m a = KMError.noError := by
        rcases hclean a (List.mem_cons_self a L1t) with h | h
        · rw [hb] at h; cases h
        · exact h
      have hstep : authWalk ((a :: L1t) ++ x :: L2) s
          = authWalk (L1t ++ x :: L2)
              { m := s.m, result := s.result,
                inauthentic := s.inauthentic, visited := s.visited ++ [a] } := by
        simp [authWalk, List.cons_append, hca, hb, har0]
      rw [hstep]
      obtain ⟨hv, hr, hm⟩ := ih x L2
        { m := s.m, result := s.result,
          inauthentic := s.inauthentic, visited := s.visited ++ [a] }
        hnone hft hres hconft hcleant hfailx
      refine ⟨?_, hr, hm⟩
      rw [hv]
      simp

end KXKextManager

namespace KXKextManager

/-- C8: during the authentication walk, with a caller-supplied container
every kext whose authentication fails is appended to the container and
the walk continues (no disqualification, manager untouched, the whole
closure visited when no version conflicts intervene); without a
container the failing kext is disqualified into its repository's bad
set, and in non-full-tests mode the walk stops right at that first
disqualifying failure. -/
theorem auth_failure_handling :
    (∀ (L : List Nat) (s : AuthWalkState) (lst : List Nat),
      s.inauthentic = some lst →
      (∀ j, j ∈ L → kextFlag s.m j (fun k => k.otherVersionIsLoaded) = false) →
      (authWalk L s).m = s.m ∧
      (authWalk L s).visited = s.visited ++ L ∧
      (authWalk L s).inauthentic = some (lst ++ L.filter (authFails s.m))) ∧
    (∀ (L1 : List Nat) (x : Nat) (L2 : List Nat) (s : AuthWalkState),
      s.inauthentic = none →
      s.m.performsFullTests = false →
      s.result = KMError.noError →
      (∀ j, j ∈ L1 ++ x :: L2 →
        kextFlag s.m j (fun k => k.otherVersionIsLoaded) = false) →
      (∀ j, j ∈ L1 → kextFlag s.m j (fun k => k.isAuthentic) = true ∨
          authResultOf s.m j = KMError.noError) →
      authFails s.m x = true →
      repositoryIndexOf s.m x < s.m.repositoryList.length →
      (authWalk (L1 ++ x :: L2) s).visited = s.visited ++ L1 ++ [x] ∧
      (authWalk (L1 ++ x :: L2) s).result = KMError.authentication ∧
      x ∈ badKextsOf (authWalk (L1 ++ x :: L2) s).m (repositoryIndexOf s.m x)) := by
  constructor
  · exact authWalk_collects
  · intro L1 x L2 s h1 h2 h3 h4 h5 h6 h7
    obtain ⟨hv, hr, hm⟩ := authWalk_disqualifies L1 x L2 s h1 h2 h3 h4 h5 h6
    refine ⟨hv, hr, ?_⟩
    rw [hm]
    exact disqualify_mem_bad s.m x h7

/-- A one-kext manager whose kext fails authentication. -/
def authScenario : KextManager :=
  { mkChainManager
      [{ mkChainKext 3 1 true none none with
          isAuthentic := false, authenticateResult := KMError.authentication }] [] with
    repositoryList := [{ candidateKexts := [0], badKexts := [] }] }

/-- The walk state with a caller-supplied container. -/
def authStateSome : AuthWalkState :=
  { m := authScenario, result := KMError.noError,
    inauthentic := some [], visited := [] }

/-- The walk state without a container. -/
def authStateNone : AuthWalkState :=
  { m := authScenario, result := KMError.noError,
    inauthentic := none, visited := [] }

/-- Witness for C8 at the one-kext closure. -/
theorem auth_failure_handling_witness :
    (authWalk [0] authStateSome).inauthentic
      = some ([] ++ List.filter (authFails authStateSome.m) [0]) ∧
    0 ∈ badKextsOf (authWalk ([] ++ 0 :: []) authStateNone).m
        (repositoryIndexOf authStateNone.m 0) :=
  ⟨(auth_failure_handling.1 [0] authStateSome [] (by decide)
      (by intro j hj; simp at hj; subst hj; decide)).2.2,
   (auth_failure_handling.2 [] 0 [] authStateNone (by decide) (by decide) (by decide)
      (by intro j hj; simp at hj; subst hj; decide)
      (by intro j hj; cases hj) (by decide) (by decide)).2.2⟩

end KXKextManager

namespace KXKextManager

/-- Unfolding one chain node. -/
theorem chainFrom_succ (m : KextManager) (fuel : Nat) (s : Nat) :
    chainFrom m (fuel + 1) (some s) = s :: chainFrom m fuel (kextPrior m s) := by
  cases h : kextPrior m s <;> simp [chainFrom, priorChain, h]

/-- In a strictly version-descending list, the first hit of a predicate
has the greatest version among all hits. -/
theorem find_first_version_max (m2 : KextManager) (p : Nat → Bool) :
    ∀ (l : List Nat),
    l.Pairwise (fun a b => kextVersion m2 b < kextVersion m2 a) →
    ∀ s, l.find? p = some s → ∀ j, j ∈ l → p j = true →
    kextVersion m2 j ≤ kextVersion m2 s := by
  intro l
  induction l with
  | nil => intro _ s h; cases h
  | cons a tail ih =>
    intro hpw s hfind j hj hpj
    rw [List.pairwise_cons] at hpw
    by_cases ha : p a = true
    · rw [List.find?_cons_of_pos _ ha] at hfind
      injection hfind with h2
      subst h2
      rcases List.mem_cons.mp hj with h3 | h3
      · subst h3; exact le_refl _
      · exact le_of_lt (hpw.1 j h3)
    · rw [List.find?_cons_of_neg _ ha] at hfind
      rcases List.mem_cons.mp hj with h3 | h3
      · subst h3; exact absurd hpj ha
      · exact ih hpw.2 s hfind j h3 hpj

/-- Characterization of the compatible-version scan loop: the first
compatible loaded kext of the remaining chain wins; otherwise the
remembered first compatible kext; otherwise the first compatible kext of
the remaining chain. -/
theorem compatScanLoop_spec (compat : Nat → Int → Bool) (m : KextManager) (v : Int) :
    ∀ (fuel : Nat) (o : Option Nat) (found : Option Nat),
    compatScanLoop compat m fuel o v found
      = (match (chainFrom m fuel o).find?
            (fun s => compat s v && kextFlag m s (fun k => k.isLoaded)) with
        | some s => some s
        | none =>
          match found with
          | some f => some f
          | none => (chainFrom m fuel o).find? (fun s => compat s v)) := by
  intro fuel
  induction fuel with
  | zero =>
    intro o found
    cases o with
    | none => cases found <;> rfl
    | some s => cases found <;> rfl
  | succ n ih =>
    intro o found
    cases o with
    | none => cases found <;> rfl
    | some s =>
      rw [chainFrom_succ]
      cases hc : compat s v with
      | true =>
        cases hl : kextFlag m s (fun k => k.isLoaded) with
        | true =>
          have hstep : compatScanLoop compat m (n + 1) (some s) v found = some s := by
            simp [compatScanLoop, hc, hl]
          rw [hstep]
          simp [hc, hl]
        | false =>
          have hstep : compatScanLoop compat m (n + 1) (some s) v found
              = compatScanLoop compat m n (kextPrior m s) v
                  (if found.isSome then found else some s) := by
            simp [compatScanLoop, hc, hl]
          rw [hstep, ih, List.find?_cons_of_neg _ (by simp [hc, hl])]
          cases hfind : List.find?
              (fun s2 => compat s2 v && kextFlag m s2 (fun k => k.isLoaded))
              (chainFrom m n (kextPrior m s)) with
          | some s2 => rfl
          | none =>
            cases found with
            | some f => rfl
            | none => simp [hc]
      | false =>
        have hstep : compatScanLoop compat m (n + 1) (some s) v found
            = compatScanLoop compat m n (kextPrior m s) v found := by
          simp [compatScanLoop, hc]
        rw [hstep, ih, List.find?_cons_of_neg _ (by simp [hc]),
          List.find?_cons_of_neg _ (by simp [hc])]

/-- C10: for a parseable version, the compatible-version lookup returns
the first kext of the descending chain that is compatible and loaded
when one exists, otherwise the first (and, the chain being strictly
descending, highest-versioned) compatible kext; it returns NULL when the
version string fails to parse or when no kext in the chain is
compatible. -/
theorem get_kext_compatible_with_version_spec (compat : Nat → Int → Bool)
    (m : KextManager) (ident : Nat) (v : Int)
    (hdesc : (compatChain m ident).Pairwise
      (fun a b => kextVersion (refreshRelationships m) b
        < kextVersion (refreshRelationships m) a)) :
    ((getKextWithIdentifierCompatibleWithVersionString compat m ident
        (some (some v))).fst
      = match (compatChain m ident).find?
            (fun s => compat s v &&
              kextFlag (refreshRelationships m) s (fun k => k.isLoaded)) with
        | some s => some s
        | none => (compatChain m ident).find? (fun s => compat s v)) ∧
    getKextWithIdentifierCompatibleWithVersionString compat m ident (some none)
      = (none, m) ∧
    ((∀ s, s ∈ compatChain m ident → compat s v = false) →
      (getKextWithIdentifierCompatibleWithVersionString compat m ident
        (some (some v))).fst = none) ∧
    (∀ s, (compatChain m ident).find?
          (fun s2 => compat s2 v &&
            kextFlag (refreshRelationships m) s2 (fun k => k.isLoaded)) = none →
      (getKextWithIdentifierCompatibleWithVersionString compat m ident
        (some (some v))).fst = some s →
      compat s v = true ∧ s ∈ compatChain m ident ∧
      ∀ j, j ∈ compatChain m ident → compat j v = true →
        kextVersion (refreshRelationships m) j
          ≤ kextVersion (refreshRelationships m) s) := by
  have hmain : (getKextWithIdentifierCompatibleWithVersionString compat m ident
        (some (some v))).fst
      = (match (compatChain m ident).find?
            (fun s => compat s v &&
              kextFlag (refreshRelationships m) s (fun k => k.isLoaded)) with
        | some s => some s
        | none => (compatChain m ident).find? (fun s => compat s v)) := by
    show compatScanLoop compat (refreshRelationships m)
        ((refreshRelationships m).kexts.length + 1)
        (dictGet (refreshRelationships m).candidateKexts ident) v none = _
    rw [compatScanLoop_spec]
    rfl
  refine ⟨hmain, rfl, ?_, ?_⟩
  · intro hall
    have h1 : (compatChain m ident).find?
        (fun s => compat s v &&
          kextFlag (refreshRelationships m) s (fun k => k.isLoaded)) = none := by
      rw [List.find?_eq_none]
      intro x hx
      simp [hall x hx]
    have h2 : (compatChain m ident).find? (fun s => compat s v) = none := by
      rw [List.find?_eq_none]
      intro x hx
      simp [hall x hx]
    rw [hmain, h1, h2]
  · intro s hnone hsome
    rw [hmain, hnone] at hsome
    have hfind : (compatChain m ident).find? (fun s2 => compat s2 v) = some s := hsome
    have hp0 := List.find?_some hfind
    have hp1 : compat s v = true := hp0
    have hmem : s ∈ compatChain m ident := List.mem_of_find?_eq_some hfind
    exact ⟨hp1, hmem,
      fun j hj hpj => find_first_version_max _ _ _ hdesc s hfind j hj hpj⟩

/-- Witness for C10 at a concrete one-kext chain. -/
theorem get_kext_compatible_witness :
    (compatChain staleScenario 3).Pairwise
      (fun a b => kextVersion (refreshRelationships staleScenario) b
        < kextVersion (refreshRelationships staleScenario) a) ∧
    getKextWithIdentifierCompatibleWithVersionString (fun _ _ => true)
        staleScenario 3 (some none) = (none, staleScenario) :=
  ⟨by decide,
    (get_kext_compatible_with_version_spec (fun _ _ => true) staleScenario 3 1
      (by decide)).2.1⟩

end KXKextManager

namespace KXKextManager

/-! ### C9: loaded-flag reconciliation against the kernel module table -/

/-- The per-node update applied by the marking walk of
KXKextManagerCheckForLoadedKexts: a version match sets isLoaded, any
other version sets otherVersionIsLoaded. -/
def markNode (vers : Int) (k : Kext) : Kext :=
  if k.version = vers then { k with isLoaded := true }
  else { k with otherVersionIsLoaded := true }

/-- Marking never rewrites a priorVersion link. -/
theorem markNode_prior (vers : Int) (k : Kext) :
    (markNode vers k).priorVersionKext = k.priorVersionKext := by
  unfold markNode
  split <;> rfl

/-- Marking never rewrites a duplicateVersion link. -/
theorem markNode_dup (vers : Int) (k : Kext) :
    (markNode vers k).duplicateVersionKext = k.duplicateVersionKext := by
  unfold markNode
  split <;> rfl

/-- Marking never rewrites a version. -/
theorem markNode_version (vers : Int) (k : Kext) :
    (markNode vers k).version = k.version := by
  unfold markNode
  split <;> rfl

/-- Marking a node twice with the same kernel version is marking it
once. -/
theorem markNode_idem (vers : Int) (k : Kext) :
    markNode vers (markNode vers k) = markNode vers k := by
  by_cases hv : k.version = vers
  · simp [markNode, hv]
  · simp [markNode, hv]

/-- The isLoaded flag after one marking step. -/
theorem markNode_isLoaded (vers : Int) (k : Kext) :
    (markNode vers k).isLoaded = (decide (k.version = vers) || k.isLoaded) := by
  by_cases hv : k.version = vers
  · simp [markNode, hv]
  · simp [markNode, hv]

/-- The otherVersionIsLoaded flag after one marking step. -/
theorem markNode_otherLoaded (vers : Int) (k : Kext) :
    (markNode vers k).otherVersionIsLoaded
      = ((!decide (k.version = vers)) || k.otherVersionIsLoaded) := by
  by_cases hv : k.version = vers
  · simp [markNode, hv]
  · simp [markNode, hv]

/-- Reading through a _KXKextSetIsLoaded write. -/
theorem kextAt_setIsLoaded (m : KextManager) (i j : Nat) :
    kextAt (setIsLoaded m i) j
      = if j = i then (kextAt m j).map (fun k => { k with isLoaded := true })
        else kextAt m j :=
  kextAt_updateKext m i _ j

/-- Reading through a _KXKextSetOtherVersionIsLoaded write. -/
theorem kextAt_setOtherVersionIsLoaded (m : KextManager) (i j : Nat) :
    kextAt (setOtherVersionIsLoaded m i) j
      = if j = i then (kextAt m j).map (fun k => { k with otherVersionIsLoaded := true })
        else kextAt m j :=
  kextAt_updateKext m i _ j

/-- Setting the isLoaded flag keeps every duplicateVersion link. -/
theorem kextDup_setIsLoaded (m : KextManager) (i j : Nat) :
    kextDup (setIsLoaded m i) j = kextDup m j := by
  unfold kextDup
  rw [kextAt_setIsLoaded]
  by_cases hj : j = i
  · rw [if_pos hj]
    cases kextAt m j <;> rfl
  · rw [if_neg hj]

/-- Setting the otherVersionIsLoaded flag keeps every duplicateVersion
link. -/
theorem kextDup_setOtherVersionIsLoaded (m : KextManager) (i j : Nat) :
    kextDup (setOtherVersionIsLoaded m i) j = kextDup m j := by
  unfold kextDup
  rw [kextAt_setOtherVersionIsLoaded]
  by_cases hj : j = i
  · rw [if_pos hj]
    cases kextAt m j <;> rfl
  · rw [if_neg hj]

/-- The duplicate-chain traversal order only depends on the duplicate
links. -/
theorem dupVisit_congr (m2 m : KextManager)
    (h : ∀ i, kextDup m2 i = kextDup m i) :
    ∀ (fuel : Nat) (d : Option Nat), dupVisit m2 fuel d = dupVisit m fuel d := by
  intro fuel
  induction fuel with
  | zero => intro d; cases d <;> rfl
  | succ n ih =>
    intro d
    cases d with
    | none => rfl
    | some d0 =>
      show d0 :: dupVisit m2 n (kextDup m2 d0) = d0 :: dupVisit m n (kextDup m d0)
      rw [h d0, ih]

/-- The full traversal order only depends on the chain links. -/
theorem markVisit_congr (m2 m : KextManager)
    (hd : ∀ i, kextDup m2 i = kextDup m i)
    (hp : ∀ i, kextPrior m2 i = kextPrior m i) :
    ∀ (fuel : Nat) (t : Option Nat), markVisit m2 fuel t = markVisit m fuel t := by
  intro fuel
  induction fuel with
  | zero => intro t; cases t <;> rfl
  | succ n ih =>
    intro t
    cases t with
    | none => rfl
    | some t0 =>
      show dupVisit m2 (n + 1) (some t0) ++ markVisit m2 n (kextPrior m2 t0)
        = dupVisit m (n + 1) (some t0) ++ markVisit m n (kextPrior m t0)
      rw [dupVisit_congr m2 m hd, hp t0, ih]

/-- The duplicate-chain marking loop applies exactly the per-node
marking to the nodes it traverses and touches nothing else. -/
theorem kextAt_markDupWalk (vers : Int) :
    ∀ (fuel : Nat) (m : KextManager) (d : Option Nat) (j : Nat),
    kextAt (markDupWalk m fuel d vers) j
      = if j ∈ dupVisit m fuel d then (kextAt m j).map (markNode vers)
        else kextAt m j := by
  intro fuel
  induction fuel with
  | zero =>
    intro m d j
    cases d <;> simp [markDupWalk, dupVisit]
  | succ n ih =>
    intro m d j
    cases d with
    | none => simp [markDupWalk, dupVisit]
    | some d0 =>
      have hstep : markDupWalk m (n + 1) (some d0) vers
          = markDupWalk
              (if kextVersion m d0 = vers then setIsLoaded m d0
               else setOtherVersionIsLoaded m d0) n
              (kextDup
                (if kextVersion m d0 = vers then setIsLoaded m d0
                 else setOtherVersionIsLoaded m d0) d0) vers := rfl
      have hdup : ∀ i, kextDup
          (if kextVersion m d0 = vers then setIsLoaded m d0
           else setOtherVersionIsLoaded m d0) i = kextDup m i := by
        intro i
        by_cases hveq : kextVersion m d0 = vers
        · rw [if_pos hveq, kextDup_setIsLoaded]
        · rw [if_neg hveq, kextDup_setOtherVersionIsLoaded]
      have hA : ∀ j2, kextAt
          (if kextVersion m d0 = vers then setIsLoaded m d0
           else setOtherVersionIsLoaded m d0) j2
          = if j2 = d0 then (kextAt m j2).map (markNode vers) else kextAt m j2 := by
        intro j2
        by_cases hj : j2 = d0
        · subst hj
          by_cases hveq : kextVersion m j2 = vers
          · rw [if_pos hveq, kextAt_setIsLoaded, if_pos rfl, if_pos rfl]
            cases hk : kextAt m j2 with
            | none => rfl
            | some k =>
              have hkv : k.version = vers := by
                unfold kextVersion at hveq
                rw [hk] at hveq
                exact hveq
              show some { k with isLoaded := true } = some (markNode vers k)
              unfold markNode
              rw [if_pos hkv]
          · rw [if_neg hveq, kextAt_setOtherVersionIsLoaded, if_pos rfl, if_pos rfl]
            cases hk : kextAt m j2 with
            | none => rfl
            | some k =>
              have hkv : ¬(k.version = vers) := by
                intro h
                apply hveq
                unfold kextVersion
                rw [hk]
                exact h
              show some { k with otherVersionIsLoaded := true } = some (markNode vers k)
              unfold markNode
              rw [if_neg hkv]
        · by_cases hveq : kextVersion m d0 = vers
          · rw [if_pos hveq, kextAt_setIsLoaded, if_neg hj, if_neg hj]
          · rw [if_neg hveq, kextAt_setOtherVersionIsLoaded, if_neg hj, if_neg hj]
      rw [hstep, ih, dupVisit_congr _ m hdup, hdup d0]
      have hvis : dupVisit m (n + 1) (some d0)
          = d0 :: dupVisit m n (kextDup m d0) := rfl
      rw [hvis]
      by_cases hmem : j ∈ dupVisit m n (kextDup m d0)
      · rw [if_pos hmem, if_pos (List.mem_cons.mpr (Or.inr hmem)), hA j]
        by_cases hj : j = d0
        · rw [if_pos hj]
          cases hk : kextAt m j with
          | none => rfl
          | some k =>
            show some (markNode vers (markNode vers k)) = some (markNode vers k)
            rw [markNode_idem]
        · rw [if_neg hj]
      · rw [if_neg hmem, hA j]
        by_cases hj : j = d0
        · rw [if_pos hj, if_pos (List.mem_cons.mpr (Or.inl hj))]
        · rw [if_neg hj, if_neg (fun hc => (List.mem_cons.mp hc).elim hj hmem)]

/-- The full marking walk applies exactly the per-node marking to the
nodes it traverses and touches nothing else. -/
theorem kextAt_markPriorWalk (vers : Int) :
    ∀ (fuel : Nat) (m : KextManager) (t : Option Nat) (j : Nat),
    kextAt (markPriorWalk m fuel t vers) j
      = if j ∈ markVisit m fuel t then (kextAt m j).map (markNode vers)
        else kextAt m j := by
  intro fuel
  induction fuel with
  | zero =>
    intro m t j
    cases t <;> simp [markPriorWalk, markVisit]
  | succ n ih =>
    intro m t j
    cases t with
    | none => simp [markPriorWalk, markVisit]
    | some t0 =>
      have hdup : ∀ i, kextDup (markDupWalk m (n + 1) (some t0) vers) i
          = kextDup m i := by
        intro i
        unfold kextDup
        rw [kextAt_markDupWalk]
        by_cases hi : i ∈ dupVisit m (n + 1) (some t0)
        · rw [if_pos hi]
          cases kextAt m i with
          | none => rfl
          | some k => exact markNode_dup vers k
        · rw [if_neg hi]
      have hprior : ∀ i, kextPrior (markDupWalk m (n + 1) (some t0) vers) i
          = kextPrior m i := by
        intro i
        unfold kextPrior
        rw [kextAt_markDupWalk]
        by_cases hi : i ∈ dupVisit m (n + 1) (some t0)
        · rw [if_pos hi]
          cases kextAt m i with
          | none => rfl
          | some k => exact markNode_prior vers k
        · rw [if_neg hi]
      have hstep : markPriorWalk m (n + 1) (some t0) vers
          = markPriorWalk (markDupWalk m (n + 1) (some t0) vers) n
              (kextPrior (markDupWalk m (n + 1) (some t0) vers) t0) vers := rfl
      rw [hstep, hprior t0, ih, markVisit_congr _ m hdup hprior]
      have hvis : markVisit m (n + 1) (some t0)
          = dupVisit m (n + 1) (some t0) ++ markVisit m n (kextPrior m t0) := rfl
      rw [hvis, kextAt_markDupWalk]
      by_cases hd : j ∈ dupVisit m (n + 1) (some t0)
      · rw [if_pos hd, if_pos (List.mem_append.mpr (Or.inl hd))]
        by_cases hmem : j ∈ markVisit m n (kextPrior m t0)
        · rw [if_pos hmem]
          cases hk : kextAt m j with
          | none => rfl
          | some k =>
            show some (markNode vers (markNode vers k)) = some (markNode vers k)
            rw [markNode_idem]
        · rw [if_neg hmem]
      · rw [if_neg hd]
        by_cases hmem : j ∈ markVisit m n (kextPrior m t0)
        · rw [if_pos hmem, if_pos (List.mem_append.mpr (Or.inr hmem))]
        · rw [if_neg hmem, if_neg (fun hc => (List.mem_append.mp hc).elim hd hmem)]

/-- Reading through the global reset of the loaded flags. -/
theorem kextAt_markAllKextsNotLoaded (m : KextManager) (j : Nat) :
    kextAt (markAllKextsNotLoaded m) j
      = (kextAt m j).map (fun k =>
          { k with isLoaded := false, otherVersionIsLoaded := false }) := by
  unfold kextAt markAllKextsNotLoaded
  exact List.get?_map _ _ _

/-- The reset keeps every duplicateVersion link. -/
theorem kextDup_markAllKextsNotLoaded (m : KextManager) (j : Nat) :
    kextDup (markAllKextsNotLoaded m) j = kextDup m j := by
  unfold kextDup
  rw [kextAt_markAllKextsNotLoaded]
  cases kextAt m j <;> rfl

/-- The reset keeps every priorVersion link. -/
theorem kextPrior_markAllKextsNotLoaded (m : KextManager) (j : Nat) :
    kextPrior (markAllKextsNotLoaded m) j = kextPrior m j := by
  unfold kextPrior
  rw [kextAt_markAllKextsNotLoaded]
  cases kextAt m j <;> rfl

end KXKextManager

namespace KXKextManager

/-- A manager whose only kext is invalid: the repository lists it, but
it never enters the candidate dictionary, which (correctly, the kext
being ineligible) is empty and up to date. -/
def invalidLoadedScenario : KextManager :=
  { mkChainManager [{ mkChainKext 3 1 true none none with isValid := false }] [] with
    repositoryList := [{ candidateKexts := [0], badKexts := [] }] }

/-- C9 counterexample: KXKextManagerCheckForLoadedKexts looks each
kernel module up through the candidate dictionary, so a kext absent
from the dictionary chains — here an invalid kext, excluded at build
time — is never marked: the query succeeds and the kernel table holds an
entry matching the kext's identifier with equal version, yet the kext's
isLoaded flag is false afterwards, refuting the claim's "if and only
if". -/
theorem loaded_flags_counterexample :
    (checkForLoadedKexts invalidLoadedScenario
        (some [{ name := 3, version := 1 }])).fst = KMError.noError ∧
    ({ name := kextBundleId invalidLoadedScenario 0,
       version := kextVersion invalidLoadedScenario 0 } : KmodEntry)
      ∈ [({ name := 3, version := 1 } : KmodEntry)] ∧
    kextFlag (checkForLoadedKexts invalidLoadedScenario
        (some [{ name := 3, version := 1 }])).snd 0 (fun k => k.isLoaded) = false ∧
    kextFlag (checkForLoadedKexts invalidLoadedScenario
        (some [{ name := 3, version := 1 }])).snd 0
        (fun k => k.otherVersionIsLoaded) = false := by
  decide

/-! Length preservation of the arena helpers. -/

/-- Writing an index never changes a list length. -/
theorem listSetAt_length {α : Type} :
    ∀ (l : List α) (i : Nat) (a : α), (listSetAt l i a).length = l.length := by
  intro l
  induction l with
  | nil => intro i a; rfl
  | cons x xs ih =>
    intro i a
    cases i with
    | zero => rfl
    | succ n =>
      show (x :: listSetAt xs n a).length = (x :: xs).length
      simp [ih]

/-- Modifying an index never changes a list length. -/
theorem listModifyAt_length {α : Type} (l : List α) (i : Nat) (f : α → α) :
    (listModifyAt l i f).length = l.length := by
  unfold listModifyAt
  cases l.get? i with
  | none => rfl
  | some a => exact listSetAt_length l i (f a)

/-- Updating one record never changes the arena size. -/
theorem updateKext_length (m : KextManager) (i : Nat) (f : Kext → Kext) :
    (updateKext m i f).kexts.length = m.kexts.length :=
  listModifyAt_length m.kexts i f

/-- The reset keeps every version. -/
theorem kextVersion_markAllKextsNotLoaded (m : KextManager) (j : Nat) :
    kextVersion (markAllKextsNotLoaded m) j = kextVersion m j := by
  unfold kextVersion
  rw [kextAt_markAllKextsNotLoaded]
  cases kextAt m j <;> rfl

/-- The reset keeps every record live. -/
theorem isSome_markAllKextsNotLoaded (m : KextManager) (j : Nat) :
    (kextAt (markAllKextsNotLoaded m) j).isSome = (kextAt m j).isSome := by
  rw [kextAt_markAllKextsNotLoaded]
  cases kextAt m j <;> rfl

/-- After the reset every isLoaded flag reads false. -/
theorem kextFlag_markAllKextsNotLoaded_load (m : KextManager) (j : Nat) :
    kextFlag (markAllKextsNotLoaded m) j (fun k => k.isLoaded) = false := by
  unfold kextFlag
  rw [kextAt_markAllKextsNotLoaded]
  cases kextAt m j <;> rfl

/-- After the reset every otherVersionIsLoaded flag reads false. -/
theorem kextFlag_markAllKextsNotLoaded_other (m : KextManager) (j : Nat) :
    kextFlag (markAllKextsNotLoaded m) j (fun k => k.otherVersionIsLoaded) = false := by
  unfold kextFlag
  rw [kextAt_markAllKextsNotLoaded]
  cases kextAt m j <;> rfl

/-! The relationship rebuild only rewrites chain links and the candidate
dictionary: arena size, versions, liveness and the loaded flags survive
it.  ArenaEq packages exactly those preserved observations. -/

/-- Arena observations preserved by the relationship rebuild. -/
structure ArenaEq (m2 m : KextManager) : Prop where
  len : m2.kexts.length = m.kexts.length
  version : ∀ j, kextVersion m2 j = kextVersion m j
  someK : ∀ j, (kextAt m2 j).isSome = (kextAt m j).isSome
  loadFlag : ∀ j, kextFlag m2 j (fun k => k.isLoaded)
    = kextFlag m j (fun k => k.isLoaded)
  otherFlag : ∀ j, kextFlag m2 j (fun k => k.otherVersionIsLoaded)
    = kextFlag m j (fun k => k.otherVersionIsLoaded)

/-- ArenaEq is reflexive. -/
theorem arenaEq_refl (m : KextManager) : ArenaEq m m :=
  ⟨rfl, fun _ => rfl, fun _ => rfl, fun _ => rfl, fun _ => rfl⟩

/-- ArenaEq is transitive. -/
theorem arenaEq_trans {m3 m2 m : KextManager}
    (h32 : ArenaEq m3 m2) (h21 : ArenaEq m2 m) : ArenaEq m3 m :=
  ⟨h32.len.trans h21.len,
   fun j => (h32.version j).trans (h21.version j),
   fun j => (h32.someK j).trans (h21.someK j),
   fun j => (h32.loadFlag j).trans (h21.loadFlag j),
   fun j => (h32.otherFlag j).trans (h21.otherFlag j)⟩

/-- A record update that keeps version and both loaded flags preserves
the arena observations. -/
theorem arenaEq_updateKext (m : KextManager) (i : Nat) (f : Kext → Kext)
    (hv : ∀ k, (f k).version = k.version)
    (hl : ∀ k, (f k).isLoaded = k.isLoaded)
    (ho : ∀ k, (f k).otherVersionIsLoaded = k.otherVersionIsLoaded) :
    ArenaEq (updateKext m i f) m := by
  refine ⟨updateKext_length m i f, ?_, ?_, ?_, ?_⟩
  · intro j
    unfold kextVersion
    rw [kextAt_updateKext]
    by_cases hj : j = i
    · rw [if_pos hj]
      cases kextAt m j with
      | none => rfl
      | some k => exact hv k
    · rw [if_neg hj]
  · intro j
    rw [kextAt_updateKext]
    by_cases hj : j = i
    · rw [if_pos hj]
      cases kextAt m j <;> rfl
    · rw [if_neg hj]
  · intro j
    unfold kextFlag
    rw [kextAt_updateKext]
    by_cases hj : j = i
    · rw [if_pos hj]
      cases kextAt m j with
      | none => rfl
      | some k => exact hl k
    · rw [if_neg hj]
  · intro j
    unfold kextFlag
    rw [kextAt_updateKext]
    by_cases hj : j = i
    · rw [if_pos hj]
      cases kextAt m j with
      | none => rfl
      | some k => exact ho k
    · rw [if_neg hj]

/-- Writing a priorVersion link preserves the arena observations. -/
theorem arenaEq_setPrior (m : KextManager) (i : Nat) (v : Option Nat) :
    ArenaEq (setPrior m i v) m :=
  arenaEq_updateKext m i _ (fun _ => rfl) (fun _ => rfl) (fun _ => rfl)

/-- Writing a duplicateVersion link preserves the arena observations. -/
theorem arenaEq_setDup (m : KextManager) (i : Nat) (v : Option Nat) :
    ArenaEq (setDup m i v) m :=
  arenaEq_updateKext m i _ (fun _ => rfl) (fun _ => rfl) (fun _ => rfl)

/-- Clearing every chain link preserves the arena observations. -/
theorem arenaEq_clearAllKextLinks (m : KextManager) :
    ArenaEq (clearAllKextLinks m) m := by
  have hA : ∀ j, kextAt (clearAllKextLinks m) j
      = (kextAt m j).map (fun k =>
          { k with priorVersionKext := none, duplicateVersionKext := none }) := by
    intro j
    unfold kextAt clearAllKextLinks
    exact List.get?_map _ _ _
  refine ⟨List.length_map _ _, ?_, ?_, ?_, ?_⟩
  · intro j
    unfold kextVersion
    rw [hA]
    cases kextAt m j <;> rfl
  · intro j
    rw [hA]
    cases kextAt m j <;> rfl
  · intro j
    unfold kextFlag
    rw [hA]
    cases kextAt m j <;> rfl
  · intro j
    unfold kextFlag
    rw [hA]
    cases kextAt m j <;> rfl

/-- The structural clear preserves the arena observations. -/
theorem arenaEq_structuralClear (m : KextManager) :
    ArenaEq (structuralClearRelationships m) m := by
  have h := arenaEq_clearAllKextLinks m
  exact ⟨h.len, h.version, h.someK, h.loadFlag, h.otherFlag⟩

/-- The chain-insertion helper preserves the arena observations. -/
theorem arenaEq_addPriorOrDup : ∀ (fuel : Nat) (m : KextManager) (n t : Nat),
    ArenaEq (addPriorOrDuplicateVersionKext m fuel n t) m := by
  intro fuel
  induction fuel with
  | zero => intro m n t; exact arenaEq_refl m
  | succ fl ih =>
    intro m n t
    by_cases hv : kextVersion m t = kextVersion m n
    · have hstep : addPriorOrDuplicateVersionKext m (fl + 1) n t
          = setDup (setDup m t (kextDup m n)) n (some t) := by
        simp [addPriorOrDuplicateVersionKext, hv]
      rw [hstep]
      exact arenaEq_trans (arenaEq_setDup _ _ _) (arenaEq_setDup _ _ _)
    · cases hp : kextPrior m n with
      | none =>
        have hstep : addPriorOrDuplicateVersionKext m (fl + 1) n t
            = setPrior m n (some t) := by
          simp [addPriorOrDuplicateVersionKext, hv, hp]
        rw [hstep]
        exact arenaEq_setPrior _ _ _
      | some p =>
        by_cases hlt : kextVersion m p < kextVersion m t
        · have hstep : addPriorOrDuplicateVersionKext m (fl + 1) n t
              = setPrior (setPrior m t (some p)) n (some t) := by
            simp [addPriorOrDuplicateVersionKext, hv, hp, hlt]
          rw [hstep]
          exact arenaEq_trans (arenaEq_setPrior _ _ _) (arenaEq_setPrior _ _ _)
        · have hstep : addPriorOrDuplicateVersionKext m (fl + 1) n t
              = addPriorOrDuplicateVersionKext m fl p t := by
            simp [addPriorOrDuplicateVersionKext, hv, hp, hlt]
          rw [hstep]
          exact ih m p t

/-- One builder-loop insertion preserves the arena observations. -/
theorem arenaEq_insertCandidateKext (m : KextManager) (t : Nat) :
    ArenaEq (insertCandidateKext m t) m := by
  cases hk : kextAt m t with
  | none =>
    have hstep : insertCandidateKext m t = m := by
      simp [insertCandidateKext, hk]
    rw [hstep]
    exact arenaEq_refl m
  | some k =>
    by_cases he : eligibleCandidate m.safeBoot k
    · cases hd : dictGet m.candidateKexts k.bundleId with
      | none =>
        have hstep : insertCandidateKext m t
            = { m with candidateKexts := dictSet m.candidateKexts k.bundleId t } := by
          simp [insertCandidateKext, hk, he, hd]
        rw [hstep]
        exact ⟨rfl, fun _ => rfl, fun _ => rfl, fun _ => rfl, fun _ => rfl⟩
      | some a =>
        by_cases hlt : kextVersion m a < kextVersion m t
        · have hstep : insertCandidateKext m t
              = { setPrior m t (some a) with
                  candidateKexts :=
                    dictSet (setPrior m t (some a)).candidateKexts k.bundleId t } := by
            simp [insertCandidateKext, hk, he, hd, hlt]
          rw [hstep]
          have h := arenaEq_setPrior m t (some a)
          exact ⟨h.len, h.version, h.someK, h.loadFlag, h.otherFlag⟩
        · have hstep : insertCandidateKext m t
              = addPriorOrDuplicateVersionKext m (m.kexts.length + 1) a t := by
            simp [insertCandidateKext, hk, he, hd, hlt]
          rw [hstep]
          exact arenaEq_addPriorOrDup _ m a t
    · have hstep : insertCandidateKext m t = m := by
        simp [insertCandidateKext, hk, he]
      rw [hstep]
      exact arenaEq_refl m

/-- The builder fold preserves the arena observations. -/
theorem arenaEq_buildFold : ∀ (l : List Nat) (m2 m : KextManager),
    ArenaEq m2 m → ArenaEq (l.foldl insertCandidateKext m2) m := by
  intro l
  induction l with
  | nil => intro m2 m h; exact h
  | cons t rest ih =>
    intro m2 m h
    rw [List.foldl_cons]
    exact ih _ m (arenaEq_trans (arenaEq_insertCandidateKext m2 t) h)

/-- The full rebuild preserves the arena observations. -/
theorem arenaEq_calculate (m : KextManager) :
    ArenaEq (calculateVersionRelationships m) m := by
  have h0 : ArenaEq (clearDependencyRelationships (structuralClearRelationships m)) m := by
    have h := arenaEq_structuralClear m
    exact ⟨h.len, h.version, h.someK, h.loadFlag, h.otherFlag⟩
  have h1 := arenaEq_buildFold (buildTraversal m) _ m h0
  exact ⟨h1.len, h1.version, h1.someK, h1.loadFlag, h1.otherFlag⟩

/-- The accessor refresh preamble preserves the arena observations. -/
theorem arenaEq_refresh (m : KextManager) :
    ArenaEq (refreshRelationships m) m := by
  by_cases h1 : m.needsClearRelationships
  · have hstep : refreshRelationships m
        = calculateVersionRelationships (structuralClearRelationships m) := by
      simp [refreshRelationships, h1,
        show (structuralClearRelationships m).needsCalculateRelationships = true from rfl]
    rw [hstep]
    exact arenaEq_trans (arenaEq_calculate _) (arenaEq_structuralClear m)
  · by_cases h2 : m.needsCalculateRelationships
    · have hstep : refreshRelationships m = calculateVersionRelationships m := by
        simp [refreshRelationships, h1, h2]
      rw [hstep]
      exact arenaEq_calculate m
    · have hstep : refreshRelationships m = m := by
        simp [refreshRelationships, h1, h2]
      rw [hstep]
      exact arenaEq_refl m

/-! The stale flags after the refresh preamble are always low. -/

/-- The chain-insertion helper never touches the stale flags. -/
theorem addPriorOrDup_mgrFlags : ∀ (fuel : Nat) (m : KextManager) (n t : Nat),
    mgrFlags (addPriorOrDuplicateVersionKext m fuel n t) = mgrFlags m := by
  intro fuel
  induction fuel with
  | zero => intro m n t; rfl
  | succ fl ih =>
    intro m n t
    by_cases hv : kextVersion m t = kextVersion m n
    · have hstep : addPriorOrDuplicateVersionKext m (fl + 1) n t
          = setDup (setDup m t (kextDup m n)) n (some t) := by
        simp [addPriorOrDuplicateVersionKext, hv]
      rw [hstep]
      rfl
    · cases hp : kextPrior m n with
      | none =>
        have hstep : addPriorOrDuplicateVersionKext m (fl + 1) n t
            = setPrior m n (some t) := by
          simp [addPriorOrDuplicateVersionKext, hv, hp]
        rw [hstep]
        rfl
      | some p =>
        by_cases hlt : kextVersion m p < kextVersion m t
        · have hstep : addPriorOrDuplicateVersionKext m (fl + 1) n t
              = setPrior (setPrior m t (some p)) n (some t) := by
            simp [addPriorOrDuplicateVersionKext, hv, hp, hlt]
          rw [hstep]
          rfl
        · have hstep : addPriorOrDuplicateVersionKext m (fl + 1) n t
              = addPriorOrDuplicateVersionKext m fl p t := by
            simp [addPriorOrDuplicateVersionKext, hv, hp, hlt]
          rw [hstep]
          exact ih m p t

/-- One builder-loop insertion never touches the stale flags. -/
theorem insertCandidateKext_mgrFlags (m : KextManager) (t : Nat) :
    mgrFlags (insertCandidateKext m t) = mgrFlags m := by
  cases hk : kextAt m t with
  | none =>
    have hstep : insertCandidateKext m t = m := by
      simp [insertCandidateKext, hk]
    rw [hstep]
  | some k =>
    by_cases he : eligibleCandidate m.safeBoot k
    · cases hd : dictGet m.candidateKexts k.bundleId with
      | none =>
        have hstep : insertCandidateKext m t
            = { m with candidateKexts := dictSet m.candidateKexts k.bundleId t } := by
          simp [insertCandidateKext, hk, he, hd]
        rw [hstep]
        rfl
      | some a =>
        by_cases hlt : kextVersion m a < kextVersion m t
        · have hstep : insertCandidateKext m t
              = { setPrior m t (some a) with
                  candidateKexts :=
                    dictSet (setPrior m t (some a)).candidateKexts k.bundleId t } := by
            simp [insertCandidateKext, hk, he, hd, hlt]
          rw [hstep]
          rfl
        · have hstep : insertCandidateKext m t
              = addPriorOrDuplicateVersionKext m (m.kexts.length + 1) a t := by
            simp [insertCandidateKext, hk, he, hd, hlt]
          rw [hstep]
          exact addPriorOrDup_mgrFlags _ m a t
    · have hstep : insertCandidateKext m t = m := by
        simp [insertCandidateKext, hk, he]
      rw [hstep]

/-- The full rebuild lowers both stale flags. -/
theorem calculate_mgrFlags (m : KextManager) :
    mgrFlags (calculateVersionRelationships m) = (false, false) := by
  have hx : mgrFlags (calculateVersionRelationships m)
      = (false, ((buildTraversal m).foldl insertCandidateKext
          (clearDependencyRelationships (structuralClearRelationships m))).needsClearRelationships) := rfl
  have h : ((buildTraversal m).foldl insertCandidateKext
      (clearDependencyRelationships (structuralClearRelationships m))).needsClearRelationships
      = false := by
    have h2 := foldl_mgrFlags insertCandidateKext
      (fun acc p => insertCandidateKext_mgrFlags acc p) (buildTraversal m)
      (clearDependencyRelationships (structuralClearRelationships m))
    exact congrArg Prod.snd h2
  rw [hx, h]

/-- After the refresh preamble both stale flags are low. -/
theorem refresh_mgrFlags (m : KextManager) :
    mgrFlags (refreshRelationships m) = (false, false) := by
  by_cases h1 : m.needsClearRelationships
  · have hstep : refreshRelationships m
        = calculateVersionRelationships (structuralClearRelationships m) := by
      simp [refreshRelationships, h1,
        show (structuralClearRelationships m).needsCalculateRelationships = true from rfl]
    rw [hstep]
    exact calculate_mgrFlags _
  · by_cases h2 : m.needsCalculateRelationships
    · have hstep : refreshRelationships m = calculateVersionRelationships m := by
        simp [refreshRelationships, h1, h2]
      rw [hstep]
      exact calculate_mgrFlags m
    · have hstep : refreshRelationships m = m := by
        simp [refreshRelationships, h1, h2]
      rw [hstep]
      show (m.needsCalculateRelationships, m.needsClearRelationships) = (false, false)
      rw [show m.needsCalculateRelationships = false from by simpa using h2,
        show m.needsClearRelationships = false from by simpa using h1]

/-- The refresh preamble is the identity on a relationship-fresh
manager. -/
theorem refresh_of_flags (m : KextManager)
    (h1 : m.needsClearRelationships = false)
    (h2 : m.needsCalculateRelationships = false) :
    refreshRelationships m = m := by
  simp [refreshRelationships, h1, h2]

end KXKextManager

namespace KXKextManager

/-! Chain skeleton preserved by the marking walks. -/

/-- Manager observations preserved by the marking walks: the candidate
dictionary, the stale flags, the arena size, the chain links, the
versions and liveness. -/
structure SameSkeleton (m2 m : KextManager) : Prop where
  cand : m2.candidateKexts = m.candidateKexts
  clearFlag : m2.needsClearRelationships = m.needsClearRelationships
  calcFlag : m2.needsCalculateRelationships = m.needsCalculateRelationships
  len : m2.kexts.length = m.kexts.length
  dup : ∀ j, kextDup m2 j = kextDup m j
  prior : ∀ j, kextPrior m2 j = kextPrior m j
  version : ∀ j, kextVersion m2 j = kextVersion m j
  someK : ∀ j, (kextAt m2 j).isSome = (kextAt m j).isSome

/-- SameSkeleton is reflexive. -/
theorem sameSkeleton_refl (m : KextManager) : SameSkeleton m m :=
  ⟨rfl, rfl, rfl, rfl, fun _ => rfl, fun _ => rfl, fun _ => rfl, fun _ => rfl⟩

/-- The duplicate-chain marking loop keeps the manager fields outside
the arena and the arena size. -/
theorem markDupWalk_chrome : ∀ (fuel : Nat) (m : KextManager) (d : Option Nat) (vers : Int),
    (markDupWalk m fuel d vers).candidateKexts = m.candidateKexts ∧
    (markDupWalk m fuel d vers).needsClearRelationships = m.needsClearRelationships ∧
    (markDupWalk m fuel d vers).needsCalculateRelationships
      = m.needsCalculateRelationships ∧
    (markDupWalk m fuel d vers).kexts.length = m.kexts.length := by
  intro fuel
  induction fuel with
  | zero => intro m d vers; cases d <;> exact ⟨rfl, rfl, rfl, rfl⟩
  | succ n ih =>
    intro m d vers
    cases d with
    | none => exact ⟨rfl, rfl, rfl, rfl⟩
    | some d0 =>
      by_cases hveq : kextVersion m d0 = vers
      · have hstep : markDupWalk m (n + 1) (some d0) vers
            = markDupWalk (setIsLoaded m d0) n (kextDup (setIsLoaded m d0) d0) vers := by
          simp [markDupWalk, hveq]
        rw [hstep]
        have h := ih (setIsLoaded m d0) (kextDup (setIsLoaded m d0) d0) vers
        exact ⟨h.1.trans rfl, h.2.1.trans rfl, h.2.2.1.trans rfl,
          h.2.2.2.trans (updateKext_length m d0 _)⟩
      · have hstep : markDupWalk m (n + 1) (some d0) vers
            = markDupWalk (setOtherVersionIsLoaded m d0) n
                (kextDup (setOtherVersionIsLoaded m d0) d0) vers := by
          simp [markDupWalk, hveq]
        rw [hstep]
        have h := ih (setOtherVersionIsLoaded m d0)
          (kextDup (setOtherVersionIsLoaded m d0) d0) vers
        exact ⟨h.1.trans rfl, h.2.1.trans rfl, h.2.2.1.trans rfl,
          h.2.2.2.trans (updateKext_length m d0 _)⟩

/-- The full marking walk keeps the manager fields outside the arena and
the arena size. -/
theorem markPriorWalk_chrome : ∀ (fuel : Nat) (m : KextManager) (t : Option Nat) (vers : Int),
    (markPriorWalk m fuel t vers).candidateKexts = m.candidateKexts ∧
    (markPriorWalk m fuel t vers).needsClearRelationships = m.needsClearRelationships ∧
    (markPriorWalk m fuel t vers).needsCalculateRelationships
      = m.needsCalculateRelationships ∧
    (markPriorWalk m fuel t vers).kexts.length = m.kexts.length := by
  intro fuel
  induction fuel with
  | zero => intro m t vers; cases t <;> exact ⟨rfl, rfl, rfl, rfl⟩
  | succ n ih =>
    intro m t vers
    cases t with
    | none => exact ⟨rfl, rfl, rfl, rfl⟩
    | some t0 =>
      have hstep : markPriorWalk m (n + 1) (some t0) vers
          = markPriorWalk (markDupWalk m (n + 1) (some t0) vers) n
              (kextPrior (markDupWalk m (n + 1) (some t0) vers) t0) vers := rfl
      rw [hstep]
      have h1 := ih (markDupWalk m (n + 1) (some t0) vers)
        (kextPrior (markDupWalk m (n + 1) (some t0) vers) t0) vers
      have h2 := markDupWalk_chrome (n + 1) m (some t0) vers
      exact ⟨h1.1.trans h2.1, h1.2.1.trans h2.2.1, h1.2.2.1.trans h2.2.2.1,
        h1.2.2.2.trans h2.2.2.2⟩

/-- The full marking walk keeps every duplicateVersion link. -/
theorem kextDup_markPriorWalk (m : KextManager) (fuel : Nat) (t : Option Nat)
    (vers : Int) (j : Nat) :
    kextDup (markPriorWalk m fuel t vers) j = kextDup m j := by
  unfold kextDup
  rw [kextAt_markPriorWalk]
  by_cases hi : j ∈ markVisit m fuel t
  · rw [if_pos hi]
    cases kextAt m j with
    | none => rfl
    | some k => exact markNode_dup vers k
  · rw [if_neg hi]

/-- The full marking walk keeps every priorVersion link. -/
theorem kextPrior_markPriorWalk (m : KextManager) (fuel : Nat) (t : Option Nat)
    (vers : Int) (j : Nat) :
    kextPrior (markPriorWalk m fuel t vers) j = kextPrior m j := by
  unfold kextPrior
  rw [kextAt_markPriorWalk]
  by_cases hi : j ∈ markVisit m fuel t
  · rw [if_pos hi]
    cases kextAt m j with
    | none => rfl
    | some k => exact markNode_prior vers k
  · rw [if_neg hi]

/-- The full marking walk keeps every version. -/
theorem kextVersion_markPriorWalk (m : KextManager) (fuel : Nat) (t : Option Nat)
    (vers : Int) (j : Nat) :
    kextVersion (markPriorWalk m fuel t vers) j = kextVersion m j := by
  unfold kextVersion
  rw [kextAt_markPriorWalk]
  by_cases hi : j ∈ markVisit m fuel t
  · rw [if_pos hi]
    cases kextAt m j with
    | none => rfl
    | some k => exact markNode_version vers k
  · rw [if_neg hi]

/-- The full marking walk keeps every record live. -/
theorem isSome_markPriorWalk (m : KextManager) (fuel : Nat) (t : Option Nat)
    (vers : Int) (j : Nat) :
    (kextAt (markPriorWalk m fuel t vers) j).isSome = (kextAt m j).isSome := by
  rw [kextAt_markPriorWalk]
  by_cases hi : j ∈ markVisit m fuel t
  · rw [if_pos hi]
    cases kextAt m j <;> rfl
  · rw [if_neg hi]

/-- The full marking walk preserves the skeleton relative to any
reference manager. -/
theorem sameSkeleton_markPriorWalk (r m2 : KextManager) (hs : SameSkeleton m2 r)
    (fuel : Nat) (t : Option Nat) (vers : Int) :
    SameSkeleton (markPriorWalk m2 fuel t vers) r := by
  have hc := markPriorWalk_chrome fuel m2 t vers
  exact ⟨hc.1.trans hs.cand, hc.2.1.trans hs.clearFlag, hc.2.2.1.trans hs.calcFlag,
    hc.2.2.2.trans hs.len,
    fun j => (kextDup_markPriorWalk m2 fuel t vers j).trans (hs.dup j),
    fun j => (kextPrior_markPriorWalk m2 fuel t vers j).trans (hs.prior j),
    fun j => (kextVersion_markPriorWalk m2 fuel t vers j).trans (hs.version j),
    fun j => (isSome_markPriorWalk m2 fuel t vers j).trans (hs.someK j)⟩

/-- The isLoaded flag after one full marking walk: set exactly on the
live visited records whose version matches, kept elsewhere. -/
theorem markPriorWalk_flag_formula (r : KextManager) (fuel : Nat) (t : Option Nat)
    (vers : Int) (j : Nat) :
    kextFlag (markPriorWalk r fuel t vers) j (fun k => k.isLoaded)
      = (kextFlag r j (fun k => k.isLoaded)
         || (decide (j ∈ markVisit r fuel t) && decide (kextVersion r j = vers)
             && (kextAt r j).isSome)) := by
  show ((kextAt (markPriorWalk r fuel t vers) j).map (fun k => k.isLoaded)).getD false = _
  rw [kextAt_markPriorWalk]
  by_cases hmem : j ∈ markVisit r fuel t
  · rw [if_pos hmem]
    cases hk : kextAt r j with
    | none => simp [kextFlag, hk]
    | some k =>
      have hv2 : kextVersion r j = k.version := by
        unfold kextVersion
        rw [hk]
        rfl
      rw [hv2]
      simp [kextFlag, hk, markNode_isLoaded, hmem, Bool.or_comm]
  · rw [if_neg hmem]
    simp [kextFlag, hmem]

/-- The otherVersionIsLoaded flag after one full marking walk: set
exactly on the live visited records whose version differs, kept
elsewhere. -/
theorem markPriorWalk_flagOther_formula (r : KextManager) (fuel : Nat) (t : Option Nat)
    (vers : Int) (j : Nat) :
    kextFlag (markPriorWalk r fuel t vers) j (fun k => k.otherVersionIsLoaded)
      = (kextFlag r j (fun k => k.otherVersionIsLoaded)
         || (decide (j ∈ markVisit r fuel t) && (!decide (kextVersion r j = vers))
             && (kextAt r j).isSome)) := by
  show ((kextAt (markPriorWalk r fuel t vers) j).map
      (fun k => k.otherVersionIsLoaded)).getD false = _
  rw [kextAt_markPriorWalk]
  by_cases hmem : j ∈ markVisit r fuel t
  · rw [if_pos hmem]
    cases hk : kextAt r j with
    | none => simp [kextFlag, hk]
    | some k =>
      have hv2 : kextVersion r j = k.version := by
        unfold kextVersion
        rw [hk]
        rfl
      rw [hv2]
      simp [kextFlag, hk, markNode_otherLoaded, hmem, Bool.or_comm]
  · rw [if_neg hmem]
    simp [kextFlag, hmem]

end KXKextManager

namespace KXKextManager

/-- The per-entry body of the kernel-table loop of
KXKextManagerCheckForLoadedKexts: skip an unparseable version, otherwise
look the identifier up (with the accessor refresh preamble) and mark its
whole chain. -/
def loadMarkStep (acc : KextManager) (e : KmodEntry) : KextManager :=
  if e.version < 0 then acc
  else
    let pair := getKextWithIdentifier acc e.name
    markPriorWalk pair.snd (pair.snd.kexts.length + 1) pair.fst e.version

/-- The reset-then-refreshed manager every marking walk of a query runs
over: loaded flags lowered, then the accessor refresh preamble. -/
def resetRefreshed (m : KextManager) : KextManager :=
  refreshRelationships (markAllKextsNotLoaded m)

/-- Boolean regrouping of one fold step of the flag accumulation. -/
theorem bool_step_assoc (a b c s : Bool) :
    ((a || (b && s)) || (c && s)) = (a || ((b || c) && s)) := by
  cases a <;> cases b <;> cases c <;> cases s <;> rfl

/-- One kernel-table entry ORs its own marks onto the accumulated flags
and keeps the chain skeleton. -/
theorem loadMarkStep_spec (r m2 : KextManager) (e : KmodEntry)
    (hclear : r.needsClearRelationships = false)
    (hcalc : r.needsCalculateRelationships = false)
    (hs : SameSkeleton m2 r) :
    SameSkeleton (loadMarkStep m2 e) r ∧
    (∀ j, kextFlag (loadMarkStep m2 e) j (fun k => k.isLoaded)
        = (kextFlag m2 j (fun k => k.isLoaded)
           || ((!decide (e.version < 0))
               && decide (j ∈ markVisit r (r.kexts.length + 1)
                    (dictGet r.candidateKexts e.name))
               && decide (kextVersion r j = e.version)
               && (kextAt r j).isSome))) ∧
    (∀ j, kextFlag (loadMarkStep m2 e) j (fun k => k.otherVersionIsLoaded)
        = (kextFlag m2 j (fun k => k.otherVersionIsLoaded)
           || ((!decide (e.version < 0))
               && decide (j ∈ markVisit r (r.kexts.length + 1)
                    (dictGet r.candidateKexts e.name))
               && (!decide (kextVersion r j = e.version))
               && (kextAt r j).isSome))) := by
  by_cases hneg : e.version < 0
  · have hstep : loadMarkStep m2 e = m2 := by
      unfold loadMarkStep
      rw [if_pos hneg]
    rw [hstep]
    exact ⟨hs, fun j => by simp [hneg], fun j => by simp [hneg]⟩
  · have hr2 : refreshRelationships m2 = m2 :=
      refresh_of_flags m2 (hs.clearFlag.trans hclear) (hs.calcFlag.trans hcalc)
    have hstep : loadMarkStep m2 e
        = markPriorWalk m2 (m2.kexts.length + 1) (dictGet m2.candidateKexts e.name)
            e.version := by
      unfold loadMarkStep
      rw [if_neg hneg]
      show markPriorWalk (refreshRelationships m2)
          ((refreshRelationships m2).kexts.length + 1)
          (dictGet (refreshRelationships m2).candidateKexts e.name) e.version = _
      rw [hr2]
    have hvis2 : markVisit m2 (m2.kexts.length + 1) (dictGet m2.candidateKexts e.name)
        = markVisit r (r.kexts.length + 1) (dictGet r.candidateKexts e.name) := by
      rw [markVisit_congr m2 r hs.dup hs.prior, hs.len, hs.cand]
    refine ⟨?_, ?_, ?_⟩
    · rw [hstep]
      exact sameSkeleton_markPriorWalk r m2 hs _ _ _
    · intro j
      rw [hstep, markPriorWalk_flag_formula, hvis2, hs.version j, hs.someK j]
      simp [hneg]
    · intro j
      rw [hstep, markPriorWalk_flagOther_formula, hvis2, hs.version j, hs.someK j]
      simp [hneg]

/-- Folding the kernel-table entries accumulates each entry's marks with
Boolean OR over the reference skeleton. -/
theorem loadMarkFold_spec (r : KextManager)
    (hclear : r.needsClearRelationships = false)
    (hcalc : r.needsCalculateRelationships = false) :
    ∀ (entries : List KmodEntry) (m2 : KextManager), SameSkeleton m2 r →
    SameSkeleton (entries.foldl loadMarkStep m2) r ∧
    (∀ j, kextFlag (entries.foldl loadMarkStep m2) j (fun k => k.isLoaded)
        = (kextFlag m2 j (fun k => k.isLoaded)
           || (entries.any (fun e => (!decide (e.version < 0))
                && decide (j ∈ markVisit r (r.kexts.length + 1)
                     (dictGet r.candidateKexts e.name))
                && decide (kextVersion r j = e.version))
              && (kextAt r j).isSome))) ∧
    (∀ j, kextFlag (entries.foldl loadMarkStep m2) j (fun k => k.otherVersionIsLoaded)
        = (kextFlag m2 j (fun k => k.otherVersionIsLoaded)
           || (entries.any (fun e => (!decide (e.version < 0))
                && decide (j ∈ markVisit r (r.kexts.length + 1)
                     (dictGet r.candidateKexts e.name))
                && (!decide (kextVersion r j = e.version)))
              && (kextAt r j).isSome))) := by
  intro entries
  induction entries with
  | nil =>
    intro m2 hs
    exact ⟨hs, fun j => by simp, fun j => by simp⟩
  | cons e rest ih =>
    intro m2 hs
    have hstep := loadMarkStep_spec r m2 e hclear hcalc hs
    have hih := ih (loadMarkStep m2 e) hstep.1
    refine ⟨?_, ?_, ?_⟩
    · show SameSkeleton (rest.foldl loadMarkStep (loadMarkStep m2 e)) r
      exact hih.1
    · intro j
      show kextFlag (rest.foldl loadMarkStep (loadMarkStep m2 e)) j
          (fun k => k.isLoaded) = _
      rw [hih.2.1 j, hstep.2.1 j, List.any_cons]
      exact bool_step_assoc _ _ _ _
    · intro j
      show kextFlag (rest.foldl loadMarkStep (loadMarkStep m2 e)) j
          (fun k => k.otherVersionIsLoaded) = _
      rw [hih.2.2 j, hstep.2.2 j, List.any_cons]
      exact bool_step_assoc _ _ _ _

/-- The full table fold from the reset manager: each flag reads exactly
the OR over the table entries of that entry's marks, over the refreshed
chain structure. -/
theorem loadMarkFoldFromReset (m : KextManager) :
    ∀ (entries : List KmodEntry) (j : Nat),
    (kextFlag (entries.foldl loadMarkStep (markAllKextsNotLoaded m)) j
        (fun k => k.isLoaded)
      = (entries.any (fun e => (!decide (e.version < 0))
           && decide (j ∈ markVisit (resetRefreshed m)
                ((resetRefreshed m).kexts.length + 1)
                (dictGet (resetRefreshed m).candidateKexts e.name))
           && decide (kextVersion (resetRefreshed m) j = e.version))
         && (kextAt (resetRefreshed m) j).isSome)) ∧
    (kextFlag (entries.foldl loadMarkStep (markAllKextsNotLoaded m)) j
        (fun k => k.otherVersionIsLoaded)
      = (entries.any (fun e => (!decide (e.version < 0))
           && decide (j ∈ markVisit (resetRefreshed m)
                ((resetRefreshed m).kexts.length + 1)
                (dictGet (resetRefreshed m).candidateKexts e.name))
           && (!decide (kextVersion (resetRefreshed m) j = e.version)))
         && (kextAt (resetRefreshed m) j).isSome)) := by
  have hflags := refresh_mgrFlags (markAllKextsNotLoaded m)
  have hclear2 : (resetRefreshed m).needsClearRelationships = false :=
    congrArg Prod.snd hflags
  have hcalc2 : (resetRefreshed m).needsCalculateRelationships = false :=
    congrArg Prod.fst hflags
  have hfl : ∀ j2, kextFlag (resetRefreshed m) j2 (fun k => k.isLoaded) = false :=
    fun j2 => ((arenaEq_refresh (markAllKextsNotLoaded m)).loadFlag j2).trans
      (kextFlag_markAllKextsNotLoaded_load m j2)
  have hfo : ∀ j2, kextFlag (resetRefreshed m) j2
      (fun k => k.otherVersionIsLoaded) = false :=
    fun j2 => ((arenaEq_refresh (markAllKextsNotLoaded m)).otherFlag j2).trans
      (kextFlag_markAllKextsNotLoaded_other m j2)
  intro entries
  induction entries with
  | nil =>
    intro j
    constructor
    · simp [kextFlag_markAllKextsNotLoaded_load]
    · simp [kextFlag_markAllKextsNotLoaded_other]
  | cons e rest ih =>
    intro j
    by_cases hneg : e.version < 0
    · have hstep : loadMarkStep (markAllKextsNotLoaded m) e = markAllKextsNotLoaded m := by
        unfold loadMarkStep
        rw [if_pos hneg]
      constructor
      · show kextFlag (rest.foldl loadMarkStep (loadMarkStep (markAllKextsNotLoaded m) e)) j
            (fun k => k.isLoaded) = _
        rw [hstep, (ih j).1, List.any_cons]
        simp [hneg]
      · show kextFlag (rest.foldl loadMarkStep (loadMarkStep (markAllKextsNotLoaded m) e)) j
            (fun k => k.otherVersionIsLoaded) = _
        rw [hstep, (ih j).2, List.any_cons]
        simp [hneg]
    · have hstep : loadMarkStep (markAllKextsNotLoaded m) e
          = markPriorWalk (resetRefreshed m) ((resetRefreshed m).kexts.length + 1)
              (dictGet (resetRefreshed m).candidateKexts e.name) e.version := by
        unfold loadMarkStep resetRefreshed
        rw [if_neg hneg]
        rfl
      have hs2 : SameSkeleton (markPriorWalk (resetRefreshed m)
          ((resetRefreshed m).kexts.length + 1)
          (dictGet (resetRefreshed m).candidateKexts e.name) e.version)
          (resetRefreshed m) :=
        sameSkeleton_markPriorWalk (resetRefreshed m) (resetRefreshed m)
          (sameSkeleton_refl (resetRefreshed m)) _ _ _
      have hfold := loadMarkFold_spec (resetRefreshed m) hclear2 hcalc2 rest _ hs2
      constructor
      · show kextFlag (rest.foldl loadMarkStep (loadMarkStep (markAllKextsNotLoaded m) e)) j
            (fun k => k.isLoaded) = _
        rw [hstep, hfold.2.1 j, markPriorWalk_flag_formula, hfl j, List.any_cons,
          bool_step_assoc]
        simp [hneg]
      · show kextFlag (rest.foldl loadMarkStep (loadMarkStep (markAllKextsNotLoaded m) e)) j
            (fun k => k.otherVersionIsLoaded) = _
        rw [hstep, hfold.2.2 j, markPriorWalk_flagOther_formula, hfo j, List.any_cons,
          bool_step_assoc]
        simp [hneg]

end KXKextManager

namespace KXKextManager

/-- C9 (amended): for every manager and every kernel module table, the
query first resets every kext's loaded flags and then marks exactly the
kexts visited by the candidate-dictionary chain walks of the processed
(parseable-version) table entries: on successful return a kext's
isLoaded (respectively otherVersionIsLoaded) flag is true if and only if
it is a live record visited by the walk over the refreshed dictionary
for some table entry with a non-negative version whose identifier
reaches it and whose version equals (respectively differs from) the
kext's — flags from earlier queries never persist, entries with
unparseable versions mark nothing, and kexts outside the dictionary's
chains are never marked even when the table matches their identity. -/
theorem check_for_loaded_kexts_amended (m : KextManager) (entries : List KmodEntry) :
    (checkForLoadedKexts m (some entries)).fst = KMError.noError ∧
    ∀ j : Nat,
      (kextFlag (checkForLoadedKexts m (some entries)).snd j (fun k => k.isLoaded)
        = (entries.any (fun e => (!decide (e.version < 0))
             && decide (j ∈ markVisit (resetRefreshed m) (m.kexts.length + 1)
                  (dictGet (resetRefreshed m).candidateKexts e.name))
             && decide (kextVersion m j = e.version))
           && (kextAt m j).isSome)) ∧
      (kextFlag (checkForLoadedKexts m (some entries)).snd j
          (fun k => k.otherVersionIsLoaded)
        = (entries.any (fun e => (!decide (e.version < 0))
             && decide (j ∈ markVisit (resetRefreshed m) (m.kexts.length + 1)
                  (dictGet (resetRefreshed m).candidateKexts e.name))
             && (!decide (kextVersion m j = e.version)))
           && (kextAt m j).isSome)) := by
  have hrun : checkForLoadedKexts m (some entries)
      = (KMError.noError, entries.foldl loadMarkStep (markAllKextsNotLoaded m)) := rfl
  refine ⟨by rw [hrun], ?_⟩
  intro j
  have hlen : (resetRefreshed m).kexts.length = m.kexts.length :=
    ((arenaEq_refresh (markAllKextsNotLoaded m)).len).trans (List.length_map _ _)
  have hver : kextVersion (resetRefreshed m) j = kextVersion m j :=
    ((arenaEq_refresh (markAllKextsNotLoaded m)).version j).trans
      (kextVersion_markAllKextsNotLoaded m j)
  have hsom : (kextAt (resetRefreshed m) j).isSome = (kextAt m j).isSome :=
    ((arenaEq_refresh (markAllKextsNotLoaded m)).someK j).trans
      (isSome_markAllKextsNotLoaded m j)
  constructor
  · show kextFlag (entries.foldl loadMarkStep (markAllKextsNotLoaded m)) j
        (fun k => k.isLoaded) = _
    rw [(loadMarkFoldFromReset m entries j).1]
    simp only [hlen, hver, hsom]
  · show kextFlag (entries.foldl loadMarkStep (markAllKextsNotLoaded m)) j
        (fun k => k.otherVersionIsLoaded) = _
    rw [(loadMarkFoldFromReset m entries j).2]
    simp only [hlen, hver, hsom]

end KXKextManager
